import Mathlib

/-!
Verification of the balance ledger and settlement engine of the
FU-MONEY-DEGEN-MADHOUSE Telegram wagering bot, shallowly embedded from
`src/index.js` and `src/utils/sqliteDB.js`.

Money amounts are modelled as exact rationals.  The JavaScript pattern
`parseFloat(x.toFixed(6))`, which follows every balance/pool computation in
the source, is modelled by `round6` (rounding to six decimal places); USDC
amounts that come off chain are multiples of `10⁻⁶` (USDC has six decimals),
captured by the `Micro` predicate, on which `round6` is the identity.
-/

/-!
Interleaving model for the concurrency claim.  Each handler is a sequence of
individual store calls (`db.get` / `db.run`), and the event loop can switch
between two in-flight handlers at any `await`.  A `Proc` is the residual
store interaction of one handler; the scheduler executes one store call per
scheduled index.
-/

/-- `parseFloat(x.toFixed(6))` from the source: round to six decimal places. -/
def round6 (q : ℚ) : ℚ := (round (q * 1000000) : ℤ) / 1000000

/-- An exact multiple of `10⁻⁶` (one micro-USDC).  Every USDC amount the
program handles (chain deposits formatted with 6 decimals, the fixed bet
sizes, the 10-USDC reward) has this form. -/
def Micro (q : ℚ) : Prop := ∃ n : ℤ, q = n / 1000000

/-- Per-user record, from the `users` table schema in `src/utils/sqliteDB.js`
(the `username`, `consecutive_login` and `last_login` columns, which no claim
mentions, are omitted). -/
structure User where
  wallet_address : String
  eth_balance : ℚ
  usdc_balance : ℚ
  total_bets : ℤ
  total_amount_bet : ℚ
  total_wins : ℤ
  total_losses : ℤ
  total_usdc_won : ℚ
  total_usdc_lost : ℚ
  highest_single_bet : ℚ
  xp : ℤ
  level : ℤ
deriving DecidableEq

/-- The SQLite store: the `users` table keyed by `telegram_id` and the
singleton `jackpot` row (`amount` column). -/
structure DB where
  users : ℕ → Option User
  jackpot : ℚ

/-- `getUserByTelegramId` from sqliteDB.js: `SELECT * FROM users WHERE
telegram_id = ?`. -/
def getUserByTelegramId (db : DB) (telegramId : ℕ) : Option User :=
  db.users telegramId

/-- `getJackpot` from sqliteDB.js: `SELECT amount FROM jackpot WHERE id = 1`. -/
def getJackpot (db : DB) : ℚ := db.jackpot

/-- `updateUserUsdcBalance` from sqliteDB.js: a blind absolute-value write,
`UPDATE users SET usdc_balance = ? WHERE telegram_id = ?`. -/
def updateUserUsdcBalance (db : DB) (telegramId : ℕ) (newBalance : ℚ) : DB :=
  { db with
    users := fun id =>
      if id = telegramId then
        (db.users telegramId).map fun u => { u with usdc_balance := newBalance }
      else db.users id }

/-- `updateUserEthBalance` from sqliteDB.js: `UPDATE users SET
eth_balance = ? WHERE telegram_id = ?`. -/
def updateUserEthBalance (db : DB) (telegramId : ℕ) (newBalance : ℚ) : DB :=
  { db with
    users := fun id =>
      if id = telegramId then
        (db.users telegramId).map fun u => { u with eth_balance := newBalance }
      else db.users id }

/-- `updateJackpot` from sqliteDB.js: `UPDATE jackpot SET amount = ? WHERE
id = 1` — again a blind absolute-value write with no non-negativity check. -/
def updateJackpot (db : DB) (newAmount : ℚ) : DB :=
  { db with jackpot := newAmount }

/-- `updateUserStatsAfterBet` from sqliteDB.js: one SQL UPDATE incrementing
the wager statistics; `highest_single_bet` is replaced when the bet exceeds
it (`CASE WHEN ? > highest_single_bet THEN ? ELSE highest_single_bet END`). -/
def updateUserStatsAfterBet (db : DB) (telegramId : ℕ) (betAmount : ℚ)
    (isWin : Bool) (payout : ℚ) : DB :=
  { db with
    users := fun id =>
      if id = telegramId then
        (db.users telegramId).map fun u =>
          { u with
            total_bets := u.total_bets + 1
            total_amount_bet := u.total_amount_bet + betAmount
            total_wins := u.total_wins + (if isWin then 1 else 0)
            total_losses := u.total_losses + (if isWin then 0 else 1)
            total_usdc_won := u.total_usdc_won + (if isWin then payout else 0)
            total_usdc_lost := u.total_usdc_lost + (if isWin then 0 else betAmount)
            highest_single_bet :=
              if u.highest_single_bet < betAmount then betAmount
              else u.highest_single_bet }
      else db.users id }

/-- `getXPForNextLevel` from sqliteDB.js:
`Math.floor(100 * Math.pow(1.5, currentLevel - 1))`. -/
def getXPForNextLevel (currentLevel : ℤ) : ℤ :=
  Int.floor ((100 : ℚ) * (3 / 2) ^ (currentLevel - 1))

/-- The `while (newXP >= getXPForNextLevel(newLevel))` cascade inside
`addUserXP`.  The source loop is governed by the same condition; the fuel
argument only bounds the recursion and is chosen large enough that it is
never exhausted for the program's reachable states (level ≥ 1, see
`xpLoop_lt_threshold`). -/
def xpLoop : ℕ → ℤ → ℤ → Bool → ℤ × ℤ × Bool
  | 0, newXP, newLevel, levelUp => (newXP, newLevel, levelUp)
  | Nat.succ fuel, newXP, newLevel, levelUp =>
    if getXPForNextLevel newLevel ≤ newXP then
      xpLoop fuel (newXP - getXPForNextLevel newLevel) (newLevel + 1) true
    else (newXP, newLevel, levelUp)

/-- `addUserXP` from sqliteDB.js: load the user, add the XP, cascade
level-ups, then `UPDATE users SET xp = ?, level = ?`.  Returns the updated
store and `(newXP, newLevel, levelUp)` (`none` when the user is missing and
the promise rejects). -/
def addUserXP (db : DB) (telegramId : ℕ) (xp : ℤ) : DB × Option (ℤ × ℤ × Bool) :=
  match db.users telegramId with
  | none => (db, none)
  | some user =>
    let start := user.xp + xp
    let r := xpLoop (start.toNat + 1) start user.level false
    ({ db with
        users := fun id =>
          if id = telegramId then some { user with xp := r.1, level := r.2.1 }
          else db.users id },
      some r)

/-- `generateSecureRandom` from src/index.js, normalization step.  The SHA-256
of (user entropy + timestamp + 16 random bytes) is abstracted into `num`, the
32-bit integer parsed from the first 8 hex characters of the hash (so
`num ≤ 0xFFFFFFFF`); the function returns `num / 0xFFFFFFFF`. -/
def generateSecureRandom (num : ℕ) : ℚ := (num : ℚ) / 0xFFFFFFFF

/-- `isPoolFunded` from src/index.js: `getJackpot() >= requiredAmount`. -/
def isPoolFunded (db : DB) (requiredAmount : ℚ) : Bool :=
  requiredAmount ≤ getJackpot db

/-- Whether `levels[newLevel]?.reward || ''` contains `'USDC'`: every entry of
the `levels` table in src/index.js (levels 1–10) carries a `... 10 USDC`
reward string; any other level yields `''`. -/
def levelHasUsdcReward (newLevel : ℤ) : Bool :=
  1 ≤ newLevel ∧ newLevel ≤ 10

/-- `applyLevelRewards` from src/index.js: when the reached level has a USDC
reward, check `isPoolFunded(10)`; if funded, credit the user 10 USDC and
deduct 10 from the pool (both via `parseFloat((..).toFixed(6))` writes). -/
def applyLevelRewards (db : DB) (telegramId : ℕ) (newLevel : ℤ) : DB :=
  if levelHasUsdcReward newLevel then
    if isPoolFunded db 10 then
      match getUserByTelegramId db telegramId with
      | none => db
      | some user =>
        let db1 := updateUserUsdcBalance db telegramId
          (round6 (user.usdc_balance + 10))
        updateJackpot db1 (round6 (getJackpot db1 - 10))
    else db
  else db

/-- The `addUserXP(id, n).then(({newXP, newLevel, levelUp}) => ...)` pattern
used after every bet/deposit in src/index.js: award the XP and, on a
level-up, run `applyLevelRewards`. -/
def awardXP (db : DB) (telegramId : ℕ) (amount : ℤ) : DB :=
  match addUserXP db telegramId amount with
  | (db1, some (_, newLevel, true)) => applyLevelRewards db1 telegramId newLevel
  | (db1, _) => db1

/-- Outcome of `handleBet` as surfaced to the player. -/
inductive BetResult where
  | notRegistered
  | insufficientBalance
  | won (enteredJackpot : Bool)
  | lost
deriving DecidableEq

/-- `handleBet` from src/index.js.  `rng` is the value returned by
`generateSecureRandom`; the outcome is `rng < 0.25`.  Steps, in source
order: load user (reject if absent), reject if `usdc_balance < betAmount`,
debit the stake, credit the stake to the pool, draw, and on a win credit
`betAmount * 3.6` to the user and deduct it from the pool unguarded.  When
the post-payout balance reaches 100 the handler enters `jackpot_scene` and
returns before awarding XP or updating statistics. -/
def handleBet (db : DB) (telegramId : ℕ) (betAmount : ℚ) (rng : ℚ) :
    DB × BetResult :=
  match getUserByTelegramId db telegramId with
  | none => (db, .notRegistered)
  | some user =>
    if user.usdc_balance < betAmount then (db, .insufficientBalance)
    else
      let newUsdcBalance := round6 (user.usdc_balance - betAmount)
      let db1 := updateUserUsdcBalance db telegramId newUsdcBalance
      let currentJackpot := getJackpot db1
      let newJackpot := round6 (currentJackpot + betAmount)
      let db2 := updateJackpot db1 newJackpot
      if rng < 1 / 4 then
        let payout := betAmount * (36 / 10)
        let updatedUsdcBalance := round6 (newUsdcBalance + payout)
        let db3 := updateUserUsdcBalance db2 telegramId updatedUsdcBalance
        let db4 := updateJackpot db3 (round6 (newJackpot - payout))
        if 100 ≤ updatedUsdcBalance then
          (db4, .won true)
        else
          let db5 := awardXP db4 telegramId 20
          let db6 := updateUserStatsAfterBet db5 telegramId betAmount true payout
          (db6, .won false)
      else
        let db5 := awardXP db2 telegramId 5
        let db6 := updateUserStatsAfterBet db5 telegramId betAmount false 0
        (db6, .lost)

/-- Outcome of the jackpot bet as surfaced to the player. -/
inductive JackpotResult where
  | notRegistered
  | insufficientBalance
  | wonUnfunded
  | won (amount : ℚ)
  | lost
deriving DecidableEq

/-- The `jackpot_yes` branch of the `jackpot_scene` callback handler in
src/index.js: fixed 100-USDC stake, win when `rng < 0.03`; on a win the pool
captured *before* the stake was added is paid out and the pool is reset to 0,
unless that captured pool is ≤ 0, in which case the player is told the pool
is empty and keeps the stake debited. -/
def jackpotBet (db : DB) (telegramId : ℕ) (rng : ℚ) : DB × JackpotResult :=
  match getUserByTelegramId db telegramId with
  | none => (db, .notRegistered)
  | some user =>
    if user.usdc_balance < 100 then (db, .insufficientBalance)
    else
      let newUsdcBalance := round6 (user.usdc_balance - 100)
      let db1 := updateUserUsdcBalance db telegramId newUsdcBalance
      let currentJackpot := getJackpot db1
      let newJackpot := round6 (currentJackpot + 100)
      let db2 := updateJackpot db1 newJackpot
      if rng < 3 / 100 then
        let jackpotAmount := currentJackpot
        if jackpotAmount ≤ 0 then
          (db2, .wonUnfunded)
        else
          let db3 := updateJackpot db2 0
          let updatedUsdcBalance := round6 (newUsdcBalance + jackpotAmount)
          let db4 := updateUserUsdcBalance db3 telegramId updatedUsdcBalance
          let db5 := awardXP db4 telegramId 50
          (db5, .won jackpotAmount)
      else
        let db5 := awardXP db2 telegramId 10
        (db5, .lost)

/-- One observable effect of a withdrawal handler, in chronological order:
an on-chain transfer request (`send(toAddress, amount)`) or a committed
ledger debit (the `UPDATE users SET ..._balance = ?` write). -/
inductive WAction where
  | transfer (toAddr : String) (amount : ℚ)
  | debitUsdc (telegramId : ℕ) (newBalance : ℚ)
  | debitEth (telegramId : ℕ) (newBalance : ℚ)
deriving DecidableEq

def WAction.isTransfer : WAction → Bool
  | .transfer _ _ => true
  | _ => false

def WAction.isDebit : WAction → Bool
  | .debitUsdc _ _ => true
  | .debitEth _ _ => true
  | _ => false

/-- Outcome of a withdrawal handler. -/
inductive WResult where
  | notRegistered
  | invalidInput
  | limitExceeded
  | insufficientBalance
  | success
  | transferFailed
deriving DecidableEq

/-- The `awaiting_usdc_withdrawal` branch of `bot.on('text')` in
src/index.js.  `validInput` is the result of `isValidAmount` on the typed
text; `transferOk` abstracts whether the awaited `withdrawUSDC` call (which
dispatches `usdcContract.transfer(user.wallet_address, amount)` — the full
amount, in one transfer) succeeds.  In source order the handler validates,
then dispatches the on-chain transfer, and only after it returns commits the
debit `parseFloat((user.usdc_balance - amount).toFixed(6))`; a throw from
the transfer is caught before any debit.  The action list records the
chronological store/chain effects. -/
def usdcWithdrawal (db : DB) (telegramId : ℕ) (amount : ℚ)
    (validInput transferOk : Bool) : DB × List WAction × WResult :=
  match getUserByTelegramId db telegramId with
  | none => (db, [], .notRegistered)
  | some user =>
    if !validInput then (db, [], .invalidInput)
    else if 10000 < amount then (db, [], .limitExceeded)
    else if user.usdc_balance < amount then (db, [], .insufficientBalance)
    else if transferOk then
      let updatedUsdcBalance := round6 (user.usdc_balance - amount)
      let db1 := updateUserUsdcBalance db telegramId updatedUsdcBalance
      (db1,
        [WAction.transfer user.wallet_address amount,
         WAction.debitUsdc telegramId updatedUsdcBalance],
        .success)
    else (db, [WAction.transfer user.wallet_address amount], .transferFailed)

/-- The `awaiting_eth_withdrawal` branch of `bot.on('text')` in src/index.js:
same shape as the USDC handler with `MAX_ETH_WITHDRAWAL = 100` and
`withdrawETH` sending the full amount to the user's address. -/
def ethWithdrawal (db : DB) (telegramId : ℕ) (amount : ℚ)
    (validInput transferOk : Bool) : DB × List WAction × WResult :=
  match getUserByTelegramId db telegramId with
  | none => (db, [], .notRegistered)
  | some user =>
    if !validInput then (db, [], .invalidInput)
    else if 100 < amount then (db, [], .limitExceeded)
    else if user.eth_balance < amount then (db, [], .insufficientBalance)
    else if transferOk then
      let updatedEthBalance := round6 (user.eth_balance - amount)
      let db1 := updateUserEthBalance db telegramId updatedEthBalance
      (db1,
        [WAction.transfer user.wallet_address amount,
         WAction.debitEth telegramId updatedEthBalance],
        .success)
    else (db, [WAction.transfer user.wallet_address amount], .transferFailed)

/-- Modelled from the spec (§4.6), for comparison with the code: the two
on-chain transfers the Withdrawal Settler is required to request for a
withdrawal of `amount` at fee rate 1%: `amount × (1 − 0.01)` to the user's
bound address and `amount × 0.01` to the operator (team) address. -/
def specWithdrawalTransfers (userAddr teamAddr : String) (amount : ℚ) :
    List WAction :=
  [WAction.transfer userAddr (amount * (1 - 1 / 100)),
   WAction.transfer teamAddr (amount * (1 / 100))]

/-- The USDC `Transfer`-event deposit handler in src/index.js, after the
chain watcher has matched the sending address to a registered user: credit
`parseFloat((usdc_balance + amount).toFixed(6))`, then award 15 XP (with
level rewards).  An unmatched address is logged and dropped (`none` case). -/
def usdcDeposit (db : DB) (telegramId : ℕ) (amount : ℚ) : DB :=
  match getUserByTelegramId db telegramId with
  | none => db
  | some user =>
    let db1 := updateUserUsdcBalance db telegramId
      (round6 (user.usdc_balance + amount))
    awardXP db1 telegramId 15

/-- The block-poll ETH deposit handler in src/index.js: credit the ETH
balance, then award 15 XP (with level rewards). -/
def ethDeposit (db : DB) (telegramId : ℕ) (amount : ℚ) : DB :=
  match getUserByTelegramId db telegramId with
  | none => db
  | some user =>
    let db1 := updateUserEthBalance db telegramId
      (round6 (user.eth_balance + amount))
    awardXP db1 telegramId 15

/-- A ledger operation, as dispatched by the bot's handlers. -/
inductive Op where
  | bet (telegramId : ℕ) (betAmount rng : ℚ)
  | jackpotTry (telegramId : ℕ) (rng : ℚ)
  | usdcWithdrawOp (telegramId : ℕ) (amount : ℚ) (validInput transferOk : Bool)
  | ethWithdrawOp (telegramId : ℕ) (amount : ℚ) (validInput transferOk : Bool)
  | usdcDepositOp (telegramId : ℕ) (amount : ℚ)
  | ethDepositOp (telegramId : ℕ) (amount : ℚ)

/-- Amounts the source can actually feed each operation: bets come from the
fixed button set and deposit amounts are formatted non-negative chain
values.  (Withdrawal amounts are fully validated inside the handler.) -/
def Op.wf : Op → Prop
  | .bet _ betAmount _ => 0 ≤ betAmount
  | .usdcDepositOp _ amount => 0 ≤ amount
  | .ethDepositOp _ amount => 0 ≤ amount
  | _ => True

def applyOp (db : DB) : Op → DB
  | .bet telegramId betAmount rng => (handleBet db telegramId betAmount rng).1
  | .jackpotTry telegramId rng => (jackpotBet db telegramId rng).1
  | .usdcWithdrawOp telegramId amount v t =>
      (usdcWithdrawal db telegramId amount v t).1
  | .ethWithdrawOp telegramId amount v t =>
      (ethWithdrawal db telegramId amount v t).1
  | .usdcDepositOp telegramId amount => usdcDeposit db telegramId amount
  | .ethDepositOp telegramId amount => ethDeposit db telegramId amount

def applyOps (db : DB) (ops : List Op) : DB := ops.foldl applyOp db

/-- The USDC balance the store holds for `id` (0 when unregistered). -/
def userUsdc (db : DB) (id : ℕ) : ℚ := (db.users id).elim 0 User.usdc_balance

/-- The ETH balance the store holds for `id` (0 when unregistered). -/
def userEth (db : DB) (id : ℕ) : ℚ := (db.users id).elim 0 User.eth_balance

/-- Every registered account has non-negative balances. -/
def AccNonneg (db : DB) : Prop :=
  ∀ id u, db.users id = some u → 0 ≤ u.usdc_balance ∧ 0 ≤ u.eth_balance

/-- Residual store interaction of one in-flight handler: read or blindly
write the bettor's USDC balance or the pool amount. -/
inductive Proc where
  | done
  | readBal (k : ℚ → Proc)
  | writeBal (v : ℚ) (k : Proc)
  | readPool (k : ℚ → Proc)
  | writePool (v : ℚ) (k : Proc)

/-- The balance/pool store calls a losing `handleBet(S)` performs, in source
order: read the balance (via `getUserByTelegramId`), reject if below the
stake, blindly write the debited balance, read the pool, blindly write the
credited pool.  XP and statistics writes touch neither balance nor pool and
are omitted. -/
def betProcCont (s : ℚ) : Proc :=
  Proc.readBal fun b =>
    if b < s then Proc.done
    else
      Proc.writeBal (round6 (b - s))
        (Proc.readPool fun p => Proc.writePool (round6 (p + s)) Proc.done)

/-- Execute one store call of one handler against the shared store
`(balance, pool)`; also report the value of a balance read, if any. -/
def stepProc (store : ℚ × ℚ) : Proc → (ℚ × ℚ) × Proc × Option ℚ
  | .done => (store, .done, none)
  | .readBal k => (store, k store.1, some store.1)
  | .writeBal v k => ((v, store.2), k, none)
  | .readPool k => (store, k store.2, none)
  | .writePool v k => ((store.1, v), k, none)

/-- Run a schedule over two in-flight handlers: at each step the scheduled
handler (`false` = first, `true` = second) performs its next store call.
Returns the final store and the log of observed pre-debit balance reads. -/
def runSched : List Bool → ℚ × ℚ → Proc × Proc → List ℚ → (ℚ × ℚ) × List ℚ
  | [], store, _, reads => (store, reads)
  | false :: rest, store, procs, reads =>
    let r := stepProc store procs.1
    runSched rest r.1 (r.2.1, procs.2) (reads ++ r.2.2.toList)
  | true :: rest, store, procs, reads =>
    let r := stepProc store procs.2
    runSched rest r.1 (procs.1, r.2.1) (reads ++ r.2.2.toList)

/-- A registered user with zeroed balances and statistics, level 1. -/
def baseUser : User :=
  { wallet_address := "0xUser", eth_balance := 0, usdc_balance := 0,
    total_bets := 0, total_amount_bet := 0, total_wins := 0, total_losses := 0,
    total_usdc_won := 0, total_usdc_lost := 0, highest_single_bet := 0,
    xp := 0, level := 1 }

/-- A store holding exactly one registered user (telegram id 1) and the
given pool amount. -/
def oneUserDB (u : User) (pool : ℚ) : DB :=
  { users := fun id => if id = 1 then some u else none, jackpot := pool }

theorem Micro.round6_eq {q : ℚ} (h : Micro q) : round6 q = q := by
  obtain ⟨n, rfl⟩ := h
  have h6 : ((n : ℚ) / 1000000) * 1000000 = (n : ℚ) := by field_simp
  rw [round6, h6, round_intCast]

theorem Micro.add {a b : ℚ} (ha : Micro a) (hb : Micro b) : Micro (a + b) := by
  obtain ⟨n, rfl⟩ := ha
  obtain ⟨m, rfl⟩ := hb
  exact ⟨n + m, by push_cast; ring⟩

theorem Micro.neg {a : ℚ} (ha : Micro a) : Micro (-a) := by
  obtain ⟨n, rfl⟩ := ha
  exact ⟨-n, by push_cast; ring⟩

theorem Micro.sub {a b : ℚ} (ha : Micro a) (hb : Micro b) : Micro (a - b) := by
  simpa [sub_eq_add_neg] using ha.add hb.neg

theorem Micro.intCast (n : ℤ) : Micro (n : ℚ) :=
  ⟨n * 1000000, by push_cast; field_simp⟩

theorem Micro.zero : Micro (0 : ℚ) := by simpa using Micro.intCast 0

theorem round6_nonneg {q : ℚ} (h : 0 ≤ q) : 0 ≤ round6 q := by
  have hr : (0 : ℤ) ≤ round (q * 1000000) := by
    rw [round_eq]
    refine Int.le_floor.mpr ?_
    push_cast
    nlinarith
  rw [round6]
  exact div_nonneg (by exact_mod_cast hr) (by norm_num)

/-! Evaluation lemmas for concrete runs. -/
theorem round6_zero : round6 0 = 0 := Micro.zero.round6_eq

theorem round6_one : round6 1 = 1 := by
  have : ((1 : ℤ) : ℚ) = (1 : ℚ) := by norm_num
  simpa [this] using (Micro.intCast 1).round6_eq

theorem round6_ofNat (n : ℕ) [n.AtLeastTwo] :
    round6 (OfNat.ofNat n : ℚ) = OfNat.ofNat n := by
  have : (((n : ℤ)) : ℚ) = (OfNat.ofNat n : ℚ) := by push_cast; rfl
  simpa [this] using (Micro.intCast n).round6_eq

theorem round6_neg_ofNat (n : ℕ) [n.AtLeastTwo] :
    round6 (-(OfNat.ofNat n : ℚ)) = -(OfNat.ofNat n : ℚ) := by
  have : ((-(n : ℤ)) : ℚ) = -(OfNat.ofNat n : ℚ) := by push_cast; rfl
  simpa [this] using (Micro.intCast (-n)).round6_eq

theorem getXPForNextLevel_one : getXPForNextLevel 1 = 100 := by
  have h0 : ((1 : ℤ) - 1) = 0 := by norm_num
  rw [getXPForNextLevel, h0, zpow_zero, mul_one]
  rw [show ((100 : ℚ)) = ((100 : ℤ) : ℚ) by norm_num, Int.floor_intCast]

theorem getXPForNextLevel_two : getXPForNextLevel 2 = 150 := by
  have h1 : ((2 : ℤ) - 1) = 1 := by norm_num
  rw [getXPForNextLevel, h1, zpow_one]
  rw [show (100 : ℚ) * (3 / 2) = ((150 : ℤ) : ℚ) by norm_num, Int.floor_intCast]

theorem xpLoop_succ (fuel : ℕ) (x l : ℤ) (b : Bool) :
    xpLoop (fuel + 1) x l b =
      if getXPForNextLevel l ≤ x then
        xpLoop fuel (x - getXPForNextLevel l) (l + 1) true
      else (x, l, b) := rfl

/-! Projection and frame lemmas for the store operations. -/
theorem users_updateUsdc (db : DB) (tid : ℕ) (v : ℚ) (j : ℕ) :
    (updateUserUsdcBalance db tid v).users j =
      if j = tid then (db.users tid).map fun u => { u with usdc_balance := v }
      else db.users j := rfl

theorem users_updateEth (db : DB) (tid : ℕ) (v : ℚ) (j : ℕ) :
    (updateUserEthBalance db tid v).users j =
      if j = tid then (db.users tid).map fun u => { u with eth_balance := v }
      else db.users j := rfl

theorem jackpot_updateUsdc (db : DB) (tid : ℕ) (v : ℚ) :
    (updateUserUsdcBalance db tid v).jackpot = db.jackpot := rfl

theorem jackpot_updateEth (db : DB) (tid : ℕ) (v : ℚ) :
    (updateUserEthBalance db tid v).jackpot = db.jackpot := rfl

theorem users_updateJackpot (db : DB) (a : ℚ) (j : ℕ) :
    (updateJackpot db a).users j = db.users j := rfl

theorem jackpot_updateJackpot (db : DB) (a : ℚ) :
    (updateJackpot db a).jackpot = a := rfl

theorem jackpot_stats (db : DB) (tid : ℕ) (bet : ℚ) (w : Bool) (p : ℚ) :
    (updateUserStatsAfterBet db tid bet w p).jackpot = db.jackpot := rfl

theorem userUsdc_stats (db : DB) (tid : ℕ) (bet : ℚ) (w : Bool) (p : ℚ) (j : ℕ) :
    userUsdc (updateUserStatsAfterBet db tid bet w p) j = userUsdc db j := by
  unfold userUsdc updateUserStatsAfterBet
  by_cases h : j = tid
  · subst h
    simp only [if_pos rfl]
    cases db.users j <;> simp
  · simp only [if_neg h]

theorem userEth_stats (db : DB) (tid : ℕ) (bet : ℚ) (w : Bool) (p : ℚ) (j : ℕ) :
    userEth (updateUserStatsAfterBet db tid bet w p) j = userEth db j := by
  unfold userEth updateUserStatsAfterBet
  by_cases h : j = tid
  · subst h
    simp only [if_pos rfl]
    cases db.users j <;> simp
  · simp only [if_neg h]

theorem users_stats_other (db : DB) (tid : ℕ) (bet : ℚ) (w : Bool) (p : ℚ)
    (j : ℕ) (h : j ≠ tid) :
    (updateUserStatsAfterBet db tid bet w p).users j = db.users j := by
  unfold updateUserStatsAfterBet
  simp only [if_neg h]

theorem jackpot_addUserXP (db : DB) (tid : ℕ) (x : ℤ) :
    ((addUserXP db tid x).1).jackpot = db.jackpot := by
  unfold addUserXP
  cases db.users tid <;> rfl

theorem userUsdc_addUserXP (db : DB) (tid : ℕ) (x : ℤ) (j : ℕ) :
    userUsdc ((addUserXP db tid x).1) j = userUsdc db j := by
  unfold userUsdc addUserXP
  cases h : db.users tid with
  | none => rfl
  | some u =>
    by_cases hj : j = tid
    · subst hj
      simp [h]
    · simp [hj]

theorem userEth_addUserXP (db : DB) (tid : ℕ) (x : ℤ) (j : ℕ) :
    userEth ((addUserXP db tid x).1) j = userEth db j := by
  unfold userEth addUserXP
  cases h : db.users tid with
  | none => rfl
  | some u =>
    by_cases hj : j = tid
    · subst hj
      simp [h]
    · simp [hj]

theorem users_addUserXP_other (db : DB) (tid : ℕ) (x : ℤ) (j : ℕ) (h : j ≠ tid) :
    ((addUserXP db tid x).1).users j = db.users j := by
  unfold addUserXP
  cases db.users tid with
  | none => rfl
  | some u => simp [h]

theorem Micro.ten : Micro (10 : ℚ) := by
  have : ((10 : ℤ) : ℚ) = (10 : ℚ) := by norm_num
  simpa [this] using Micro.intCast 10

theorem userUsdc_updateUsdc_self (db : DB) (tid : ℕ) (v : ℚ) (u : User)
    (h : db.users tid = some u) :
    userUsdc (updateUserUsdcBalance db tid v) tid = v := by
  unfold userUsdc
  rw [users_updateUsdc, if_pos rfl, h]
  rfl

theorem userUsdc_updateJackpot (db : DB) (a : ℚ) (j : ℕ) :
    userUsdc (updateJackpot db a) j = userUsdc db j := rfl

theorem userEth_updateJackpot (db : DB) (a : ℚ) (j : ℕ) :
    userEth (updateJackpot db a) j = userEth db j := rfl

theorem userEth_updateUsdc (db : DB) (tid : ℕ) (v : ℚ) (j : ℕ) :
    userEth (updateUserUsdcBalance db tid v) j = userEth db j := by
  unfold userEth
  rw [users_updateUsdc]
  by_cases h : j = tid
  · subst h
    rw [if_pos rfl]
    cases db.users j <;> rfl
  · rw [if_neg h]

theorem userUsdc_updateEth (db : DB) (tid : ℕ) (v : ℚ) (j : ℕ) :
    userUsdc (updateUserEthBalance db tid v) j = userUsdc db j := by
  unfold userUsdc
  rw [users_updateEth]
  by_cases h : j = tid
  · subst h
    rw [if_pos rfl]
    cases db.users j <;> rfl
  · rw [if_neg h]

theorem applyLevelRewards_props (db : DB) (tid : ℕ) (l : ℤ)
    (hb : Micro (userUsdc db tid)) (hp : Micro db.jackpot) :
    userUsdc (applyLevelRewards db tid l) tid + (applyLevelRewards db tid l).jackpot
        = userUsdc db tid + db.jackpot
      ∧ Micro (userUsdc (applyLevelRewards db tid l) tid)
      ∧ Micro ((applyLevelRewards db tid l).jackpot)
      ∧ (∀ j, j ≠ tid → (applyLevelRewards db tid l).users j = db.users j)
      ∧ userEth (applyLevelRewards db tid l) tid = userEth db tid := by
  unfold applyLevelRewards
  by_cases hr : levelHasUsdcReward l
  · simp only [hr, if_pos]
    by_cases hf : isPoolFunded db 10
    · simp only [hf, if_pos]
      cases h : getUserByTelegramId db tid with
      | none => exact ⟨rfl, hb, hp, fun _ _ => rfl, rfl⟩
      | some u =>
        have hu : db.users tid = some u := h
        have hbu : userUsdc db tid = u.usdc_balance := by
          unfold userUsdc
          rw [hu]
          rfl
        have hmb : Micro (u.usdc_balance + 10) := by
          rw [hbu] at hb
          exact hb.add Micro.ten
        have hmp : Micro (db.jackpot - 10) := hp.sub Micro.ten
        have e1 : round6 (u.usdc_balance + 10) = u.usdc_balance + 10 :=
          hmb.round6_eq
        have rb : userUsdc (updateJackpot
            (updateUserUsdcBalance db tid (round6 (u.usdc_balance + 10)))
            (round6 (getJackpot (updateUserUsdcBalance db tid
              (round6 (u.usdc_balance + 10))) - 10))) tid
            = u.usdc_balance + 10 := by
          rw [userUsdc_updateJackpot,
            userUsdc_updateUsdc_self _ _ _ u hu, e1]
        have rj : (updateJackpot
            (updateUserUsdcBalance db tid (round6 (u.usdc_balance + 10)))
            (round6 (getJackpot (updateUserUsdcBalance db tid
              (round6 (u.usdc_balance + 10))) - 10))).jackpot
            = db.jackpot - 10 := by
          rw [jackpot_updateJackpot]
          show round6 ((updateUserUsdcBalance db tid _).jackpot - 10) = _
          rw [jackpot_updateUsdc]
          exact hmp.round6_eq
        refine ⟨?_, ?_, ?_, ?_, ?_⟩
        · rw [rb, rj, hbu]
          ring
        · rw [rb]
          exact hmb
        · rw [rj]
          exact hmp
        · intro j hj
          rw [users_updateJackpot, users_updateUsdc, if_neg hj]
        · rw [userEth_updateJackpot, userEth_updateUsdc]
    · simp only [hf]
      exact ⟨rfl, hb, hp, fun _ _ => rfl, rfl⟩
  · simp only [hr]
    exact ⟨rfl, hb, hp, fun _ _ => rfl, rfl⟩

theorem awardXP_props (db : DB) (tid : ℕ) (n : ℤ)
    (hb : Micro (userUsdc db tid)) (hp : Micro db.jackpot) :
    userUsdc (awardXP db tid n) tid + (awardXP db tid n).jackpot
        = userUsdc db tid + db.jackpot
      ∧ Micro (userUsdc (awardXP db tid n) tid)
      ∧ Micro ((awardXP db tid n).jackpot)
      ∧ (∀ j, j ≠ tid → (awardXP db tid n).users j = db.users j)
      ∧ userEth (awardXP db tid n) tid = userEth db tid := by
  unfold awardXP
  rcases hx : addUserXP db tid n with ⟨db1, r⟩
  have h1 : db1 = (addUserXP db tid n).1 := by rw [hx]
  have hu1 : userUsdc db1 tid = userUsdc db tid := by
    rw [h1, userUsdc_addUserXP]
  have he1 : userEth db1 tid = userEth db tid := by
    rw [h1, userEth_addUserXP]
  have hj1 : db1.jackpot = db.jackpot := by
    rw [h1, jackpot_addUserXP]
  have hframe1 : ∀ j, j ≠ tid → db1.users j = db.users j := by
    intro j hj
    rw [h1, users_addUserXP_other db tid n j hj]
  match r with
  | none => exact ⟨by rw [hu1, hj1], by rw [hu1]; exact hb, by rw [hj1]; exact hp,
      hframe1, he1⟩
  | some (a, lvl, false) =>
    exact ⟨by rw [hu1, hj1], by rw [hu1]; exact hb, by rw [hj1]; exact hp,
      hframe1, he1⟩
  | some (a, lvl, true) =>
    have hb1 : Micro (userUsdc db1 tid) := by rw [hu1]; exact hb
    have hp1 : Micro db1.jackpot := by rw [hj1]; exact hp
    obtain ⟨hsum, hmb, hmp, hfr, heth⟩ := applyLevelRewards_props db1 tid lvl hb1 hp1
    refine ⟨?_, hmb, hmp, ?_, by rw [heth, he1]⟩
    · rw [hsum, hu1, hj1]
    · intro j hj
      rw [hfr j hj, hframe1 j hj]

/-! Non-negativity preservation for each store operation. -/
theorem accNonneg_updateUsdc {db : DB} (h : AccNonneg db) {tid : ℕ} {v : ℚ}
    (hv : 0 ≤ v) : AccNonneg (updateUserUsdcBalance db tid v) := by
  intro j u hj
  rw [users_updateUsdc] at hj
  by_cases hjt : j = tid
  · rw [if_pos hjt] at hj
    rcases Option.map_eq_some'.mp hj with ⟨u0, h0, hu⟩
    subst hu
    exact ⟨hv, (h tid u0 h0).2⟩
  · rw [if_neg hjt] at hj
    exact h j u hj

theorem accNonneg_updateEth {db : DB} (h : AccNonneg db) {tid : ℕ} {v : ℚ}
    (hv : 0 ≤ v) : AccNonneg (updateUserEthBalance db tid v) := by
  intro j u hj
  rw [users_updateEth] at hj
  by_cases hjt : j = tid
  · rw [if_pos hjt] at hj
    rcases Option.map_eq_some'.mp hj with ⟨u0, h0, hu⟩
    subst hu
    exact ⟨(h tid u0 h0).1, hv⟩
  · rw [if_neg hjt] at hj
    exact h j u hj

theorem accNonneg_updateJackpot {db : DB} (h : AccNonneg db) (a : ℚ) :
    AccNonneg (updateJackpot db a) := h

theorem accNonneg_stats {db : DB} (h : AccNonneg db) (tid : ℕ) (bet : ℚ)
    (w : Bool) (p : ℚ) : AccNonneg (updateUserStatsAfterBet db tid bet w p) := by
  intro j u hj
  unfold updateUserStatsAfterBet at hj
  by_cases hjt : j = tid
  · simp only [if_pos hjt] at hj
    rcases Option.map_eq_some'.mp hj with ⟨u0, h0, hu⟩
    subst hu
    exact ⟨(h tid u0 h0).1, (h tid u0 h0).2⟩
  · simp only [if_neg hjt] at hj
    exact h j u hj

theorem accNonneg_addUserXP {db : DB} (h : AccNonneg db) (tid : ℕ) (x : ℤ) :
    AccNonneg ((addUserXP db tid x).1) := by
  intro j u hj
  unfold addUserXP at hj
  cases hdb : db.users tid with
  | none =>
    rw [hdb] at hj
    exact h j u hj
  | some u0 =>
    rw [hdb] at hj
    simp only at hj
    by_cases hjt : j = tid
    · rw [if_pos hjt] at hj
      cases hj
      exact ⟨(h tid u0 hdb).1, (h tid u0 hdb).2⟩
    · rw [if_neg hjt] at hj
      exact h j u hj

theorem accNonneg_applyLevelRewards {db : DB} (h : AccNonneg db) (tid : ℕ)
    (l : ℤ) : AccNonneg (applyLevelRewards db tid l) := by
  unfold applyLevelRewards
  by_cases hr : levelHasUsdcReward l
  · simp only [hr, if_pos]
    by_cases hf : isPoolFunded db 10
    · simp only [hf, if_pos]
      cases hu : getUserByTelegramId db tid with
      | none => exact h
      | some u =>
        have hnn : 0 ≤ round6 (u.usdc_balance + 10) := by
          apply round6_nonneg
          have := (h tid u hu).1
          linarith
        exact accNonneg_updateJackpot (accNonneg_updateUsdc h hnn) _
    · simp only [hf]
      exact h
  · simp only [hr]
    exact h

theorem accNonneg_awardXP {db : DB} (h : AccNonneg db) (tid : ℕ) (n : ℤ) :
    AccNonneg (awardXP db tid n) := by
  unfold awardXP
  rcases hx : addUserXP db tid n with ⟨db1, r⟩
  have h1 : AccNonneg db1 := by
    have := accNonneg_addUserXP h tid n
    rwa [hx] at this
  match r with
  | none => exact h1
  | some (a, lvl, false) => exact h1
  | some (a, lvl, true) => exact accNonneg_applyLevelRewards h1 tid lvl

/-! Pool non-negativity for the operations that keep it. -/
theorem jackpot_applyLevelRewards_nonneg {db : DB} (hp : 0 ≤ db.jackpot)
    (tid : ℕ) (l : ℤ) : 0 ≤ (applyLevelRewards db tid l).jackpot := by
  unfold applyLevelRewards
  by_cases hr : levelHasUsdcReward l
  · simp only [hr, if_pos]
    by_cases hf : isPoolFunded db 10
    · simp only [hf, if_pos]
      cases hu : getUserByTelegramId db tid with
      | none => exact hp
      | some u =>
        have h10 : (10 : ℚ) ≤ db.jackpot := by
          have := of_decide_eq_true hf
          exact this
        rw [jackpot_updateJackpot]
        show 0 ≤ round6 ((updateUserUsdcBalance db tid _).jackpot - 10)
        rw [jackpot_updateUsdc]
        apply round6_nonneg
        linarith
    · simp only [hf]
      exact hp
  · simp only [hr]
    exact hp

theorem jackpot_awardXP_nonneg {db : DB} (hp : 0 ≤ db.jackpot) (tid : ℕ)
    (n : ℤ) : 0 ≤ (awardXP db tid n).jackpot := by
  unfold awardXP
  rcases hx : addUserXP db tid n with ⟨db1, r⟩
  have hp1 : 0 ≤ db1.jackpot := by
    have := jackpot_addUserXP db tid n
    rw [hx] at this
    rw [this]
    exact hp
  match r with
  | none => exact hp1
  | some (a, lvl, false) => exact hp1
  | some (a, lvl, true) => exact jackpot_applyLevelRewards_nonneg hp1 tid lvl

/-- When the pool cannot fund the 10-USDC reward, `awardXP` changes only XP
and level: balances and pool stay exactly as they were. -/
theorem awardXP_of_pool_lt {db : DB} (h : db.jackpot < 10) (tid : ℕ) (n : ℤ) :
    (∀ j, userUsdc (awardXP db tid n) j = userUsdc db j)
      ∧ (∀ j, userEth (awardXP db tid n) j = userEth db j)
      ∧ (awardXP db tid n).jackpot = db.jackpot := by
  unfold awardXP
  rcases hx : addUserXP db tid n with ⟨db1, r⟩
  have h1 : db1 = (addUserXP db tid n).1 := by rw [hx]
  have hu1 : ∀ j, userUsdc db1 j = userUsdc db j := by
    intro j
    rw [h1, userUsdc_addUserXP]
  have he1 : ∀ j, userEth db1 j = userEth db j := by
    intro j
    rw [h1, userEth_addUserXP]
  have hj1 : db1.jackpot = db.jackpot := by rw [h1, jackpot_addUserXP]
  have hfund : ¬ isPoolFunded db1 10 = true := by
    simp only [isPoolFunded, getJackpot, hj1]
    simp only [decide_eq_true_eq, not_le]
    exact h
  match r with
  | none => exact ⟨hu1, he1, hj1⟩
  | some (a, lvl, false) => exact ⟨hu1, he1, hj1⟩
  | some (a, lvl, true) =>
    unfold applyLevelRewards
    by_cases hr : levelHasUsdcReward lvl
    · simp only [hr, if_pos]
      simp only [Bool.not_eq_true] at hfund
      simp only [hfund]
      exact ⟨hu1, he1, hj1⟩
    · simp only [hr]
      exact ⟨hu1, he1, hj1⟩

/-! Branch characterizations of the handlers. -/
theorem handleBet_notRegistered {db : DB} {tid : ℕ} (bet rng : ℚ)
    (hu : db.users tid = none) : handleBet db tid bet rng = (db, .notRegistered) := by
  unfold handleBet getUserByTelegramId
  rw [hu]

theorem handleBet_insufficient {db : DB} {tid : ℕ} {bet : ℚ} (rng : ℚ) {u : User}
    (hu : db.users tid = some u) (hlt : u.usdc_balance < bet) :
    handleBet db tid bet rng = (db, .insufficientBalance) := by
  unfold handleBet getUserByTelegramId
  rw [hu]
  simp only [if_pos hlt]

theorem handleBet_win_offer {db : DB} {tid : ℕ} {bet rng : ℚ} {u : User}
    (hu : db.users tid = some u) (hge : ¬ u.usdc_balance < bet)
    (hrng : rng < 1 / 4)
    (hjp : 100 ≤ round6 (round6 (u.usdc_balance - bet) + bet * (36 / 10))) :
    handleBet db tid bet rng =
      (updateJackpot
        (updateUserUsdcBalance
          (updateJackpot (updateUserUsdcBalance db tid
              (round6 (u.usdc_balance - bet)))
            (round6 (db.jackpot + bet)))
          tid (round6 (round6 (u.usdc_balance - bet) + bet * (36 / 10))))
        (round6 (round6 (db.jackpot + bet) - bet * (36 / 10))),
       .won true) := by
  unfold handleBet getUserByTelegramId
  rw [hu]
  simp only [if_neg hge, if_pos hrng, getJackpot, jackpot_updateUsdc, if_pos hjp]

theorem handleBet_win_noOffer {db : DB} {tid : ℕ} {bet rng : ℚ} {u : User}
    (hu : db.users tid = some u) (hge : ¬ u.usdc_balance < bet)
    (hrng : rng < 1 / 4)
    (hjp : ¬ 100 ≤ round6 (round6 (u.usdc_balance - bet) + bet * (36 / 10))) :
    handleBet db tid bet rng =
      (updateUserStatsAfterBet
        (awardXP
          (updateJackpot
            (updateUserUsdcBalance
              (updateJackpot (updateUserUsdcBalance db tid
                  (round6 (u.usdc_balance - bet)))
                (round6 (db.jackpot + bet)))
              tid (round6 (round6 (u.usdc_balance - bet) + bet * (36 / 10))))
            (round6 (round6 (db.jackpot + bet) - bet * (36 / 10))))
          tid 20)
        tid bet true (bet * (36 / 10)),
       .won false) := by
  unfold handleBet getUserByTelegramId
  rw [hu]
  simp only [if_neg hge, if_pos hrng, getJackpot, jackpot_updateUsdc, if_neg hjp]

theorem handleBet_lose {db : DB} {tid : ℕ} {bet rng : ℚ} {u : User}
    (hu : db.users tid = some u) (hge : ¬ u.usdc_balance < bet)
    (hrng : ¬ rng < 1 / 4) :
    handleBet db tid bet rng =
      (updateUserStatsAfterBet
        (awardXP
          (updateJackpot (updateUserUsdcBalance db tid
              (round6 (u.usdc_balance - bet)))
            (round6 (db.jackpot + bet)))
          tid 5)
        tid bet false 0,
       .lost) := by
  unfold handleBet getUserByTelegramId
  rw [hu]
  simp only [if_neg hge, if_neg hrng, getJackpot, jackpot_updateUsdc]

theorem jackpotBet_notRegistered {db : DB} {tid : ℕ} (rng : ℚ)
    (hu : db.users tid = none) : jackpotBet db tid rng = (db, .notRegistered) := by
  unfold jackpotBet getUserByTelegramId
  rw [hu]

theorem jackpotBet_insufficient {db : DB} {tid : ℕ} (rng : ℚ) {u : User}
    (hu : db.users tid = some u) (hlt : u.usdc_balance < 100) :
    jackpotBet db tid rng = (db, .insufficientBalance) := by
  unfold jackpotBet getUserByTelegramId
  rw [hu]
  simp only [if_pos hlt]

theorem jackpotBet_win_funded {db : DB} {tid : ℕ} {rng : ℚ} {u : User}
    (hu : db.users tid = some u) (hge : ¬ u.usdc_balance < 100)
    (hrng : rng < 3 / 100) (hfund : ¬ db.jackpot ≤ 0) :
    jackpotBet db tid rng =
      (awardXP
        (updateUserUsdcBalance
          (updateJackpot
            (updateJackpot (updateUserUsdcBalance db tid
                (round6 (u.usdc_balance - 100)))
              (round6 (db.jackpot + 100)))
            0)
          tid (round6 (round6 (u.usdc_balance - 100) + db.jackpot)))
        tid 50,
       .won db.jackpot) := by
  unfold jackpotBet getUserByTelegramId
  rw [hu]
  simp only [if_neg hge, if_pos hrng, getJackpot, jackpot_updateUsdc,
    if_neg hfund]

theorem jackpotBet_win_unfunded {db : DB} {tid : ℕ} {rng : ℚ} {u : User}
    (hu : db.users tid = some u) (hge : ¬ u.usdc_balance < 100)
    (hrng : rng < 3 / 100) (hfund : db.jackpot ≤ 0) :
    jackpotBet db tid rng =
      (updateJackpot (updateUserUsdcBalance db tid
          (round6 (u.usdc_balance - 100)))
        (round6 (db.jackpot + 100)),
       .wonUnfunded) := by
  unfold jackpotBet getUserByTelegramId
  rw [hu]
  simp only [if_neg hge, if_pos hrng, getJackpot, jackpot_updateUsdc,
    if_pos hfund]

theorem jackpotBet_lose {db : DB} {tid : ℕ} {rng : ℚ} {u : User}
    (hu : db.users tid = some u) (hge : ¬ u.usdc_balance < 100)
    (hrng : ¬ rng < 3 / 100) :
    jackpotBet db tid rng =
      (awardXP
        (updateJackpot (updateUserUsdcBalance db tid
            (round6 (u.usdc_balance - 100)))
          (round6 (db.jackpot + 100)))
        tid 10,
       .lost) := by
  unfold jackpotBet getUserByTelegramId
  rw [hu]
  simp only [if_neg hge, if_neg hrng, getJackpot, jackpot_updateUsdc]

theorem usdcWithdrawal_notRegistered {db : DB} {tid : ℕ} (amount : ℚ)
    (v t : Bool) (hu : db.users tid = none) :
    usdcWithdrawal db tid amount v t = (db, [], .notRegistered) := by
  unfold usdcWithdrawal getUserByTelegramId
  rw [hu]

theorem usdcWithdrawal_invalid {db : DB} {tid : ℕ} (amount : ℚ) (t : Bool)
    {u : User} (hu : db.users tid = some u) :
    usdcWithdrawal db tid amount false t = (db, [], .invalidInput) := by
  unfold usdcWithdrawal getUserByTelegramId
  rw [hu]
  simp only [Bool.not_false, if_pos]

theorem usdcWithdrawal_limit {db : DB} {tid : ℕ} {amount : ℚ} (t : Bool)
    {u : User} (hu : db.users tid = some u) (hl : 10000 < amount) :
    usdcWithdrawal db tid amount true t = (db, [], .limitExceeded) := by
  unfold usdcWithdrawal getUserByTelegramId
  rw [hu]
  simp only [Bool.not_true, Bool.false_eq_true, if_false, if_pos hl]

theorem usdcWithdrawal_insufficient {db : DB} {tid : ℕ} {amount : ℚ} (t : Bool)
    {u : User} (hu : db.users tid = some u) (hl : ¬ 10000 < amount)
    (hb : u.usdc_balance < amount) :
    usdcWithdrawal db tid amount true t = (db, [], .insufficientBalance) := by
  unfold usdcWithdrawal getUserByTelegramId
  rw [hu]
  simp only [Bool.not_true, Bool.false_eq_true, if_false, if_neg hl, if_pos hb]

theorem usdcWithdrawal_success {db : DB} {tid : ℕ} {amount : ℚ} {u : User}
    (hu : db.users tid = some u) (hl : ¬ 10000 < amount)
    (hb : ¬ u.usdc_balance < amount) :
    usdcWithdrawal db tid amount true true =
      (updateUserUsdcBalance db tid (round6 (u.usdc_balance - amount)),
       [WAction.transfer u.wallet_address amount,
        WAction.debitUsdc tid (round6 (u.usdc_balance - amount))],
       .success) := by
  unfold usdcWithdrawal getUserByTelegramId
  rw [hu]
  simp only [Bool.not_true, Bool.false_eq_true, if_false, if_neg hl, if_neg hb,
    if_true]

theorem usdcWithdrawal_dispatchFailed {db : DB} {tid : ℕ} {amount : ℚ}
    {u : User} (hu : db.users tid = some u) (hl : ¬ 10000 < amount)
    (hb : ¬ u.usdc_balance < amount) :
    usdcWithdrawal db tid amount true false =
      (db, [WAction.transfer u.wallet_address amount], .transferFailed) := by
  unfold usdcWithdrawal getUserByTelegramId
  rw [hu]
  simp only [Bool.not_true, Bool.false_eq_true, if_false, if_neg hl, if_neg hb]

theorem ethWithdrawal_notRegistered {db : DB} {tid : ℕ} (amount : ℚ)
    (v t : Bool) (hu : db.users tid = none) :
    ethWithdrawal db tid amount v t = (db, [], .notRegistered) := by
  unfold ethWithdrawal getUserByTelegramId
  rw [hu]

theorem ethWithdrawal_invalid {db : DB} {tid : ℕ} (amount : ℚ) (t : Bool)
    {u : User} (hu : db.users tid = some u) :
    ethWithdrawal db tid amount false t = (db, [], .invalidInput) := by
  unfold ethWithdrawal getUserByTelegramId
  rw [hu]
  simp only [Bool.not_false, if_pos]

theorem ethWithdrawal_limit {db : DB} {tid : ℕ} {amount : ℚ} (t : Bool)
    {u : User} (hu : db.users tid = some u) (hl : 100 < amount) :
    ethWithdrawal db tid amount true t = (db, [], .limitExceeded) := by
  unfold ethWithdrawal getUserByTelegramId
  rw [hu]
  simp only [Bool.not_true, Bool.false_eq_true, if_false, if_pos hl]

theorem ethWithdrawal_insufficient {db : DB} {tid : ℕ} {amount : ℚ} (t : Bool)
    {u : User} (hu : db.users tid = some u) (hl : ¬ 100 < amount)
    (hb : u.eth_balance < amount) :
    ethWithdrawal db tid amount true t = (db, [], .insufficientBalance) := by
  unfold ethWithdrawal getUserByTelegramId
  rw [hu]
  simp only [Bool.not_true, Bool.false_eq_true, if_false, if_neg hl, if_pos hb]

theorem ethWithdrawal_success {db : DB} {tid : ℕ} {amount : ℚ} {u : User}
    (hu : db.users tid = some u) (hl : ¬ 100 < amount)
    (hb : ¬ u.eth_balance < amount) :
    ethWithdrawal db tid amount true true =
      (updateUserEthBalance db tid (round6 (u.eth_balance - amount)),
       [WAction.transfer u.wallet_address amount,
        WAction.debitEth tid (round6 (u.eth_balance - amount))],
       .success) := by
  unfold ethWithdrawal getUserByTelegramId
  rw [hu]
  simp only [Bool.not_true, Bool.false_eq_true, if_false, if_neg hl, if_neg hb,
    if_true]

theorem ethWithdrawal_dispatchFailed {db : DB} {tid : ℕ} {amount : ℚ}
    {u : User} (hu : db.users tid = some u) (hl : ¬ 100 < amount)
    (hb : ¬ u.eth_balance < amount) :
    ethWithdrawal db tid amount true false =
      (db, [WAction.transfer u.wallet_address amount], .transferFailed) := by
  unfold ethWithdrawal getUserByTelegramId
  rw [hu]
  simp only [Bool.not_true, Bool.false_eq_true, if_false, if_neg hl, if_neg hb]

theorem usdcDeposit_none {db : DB} {tid : ℕ} (amount : ℚ)
    (hu : db.users tid = none) : usdcDeposit db tid amount = db := by
  unfold usdcDeposit getUserByTelegramId
  rw [hu]

theorem usdcDeposit_some {db : DB} {tid : ℕ} (amount : ℚ) {u : User}
    (hu : db.users tid = some u) :
    usdcDeposit db tid amount =
      awardXP (updateUserUsdcBalance db tid
        (round6 (u.usdc_balance + amount))) tid 15 := by
  unfold usdcDeposit getUserByTelegramId
  rw [hu]

theorem ethDeposit_none {db : DB} {tid : ℕ} (amount : ℚ)
    (hu : db.users tid = none) : ethDeposit db tid amount = db := by
  unfold ethDeposit getUserByTelegramId
  rw [hu]

theorem ethDeposit_some {db : DB} {tid : ℕ} (amount : ℚ) {u : User}
    (hu : db.users tid = some u) :
    ethDeposit db tid amount =
      awardXP (updateUserEthBalance db tid
        (round6 (u.eth_balance + amount))) tid 15 := by
  unfold ethDeposit getUserByTelegramId
  rw [hu]

/-! Handler-level preservation of account non-negativity. -/
theorem accNonneg_handleBet {db : DB} (h : AccNonneg db) (tid : ℕ) {bet : ℚ}
    (hbet : 0 ≤ bet) (rng : ℚ) : AccNonneg ((handleBet db tid bet rng).1) := by
  cases hu : db.users tid with
  | none => rw [handleBet_notRegistered bet rng hu]; exact h
  | some u =>
    by_cases hlt : u.usdc_balance < bet
    · rw [handleBet_insufficient rng hu hlt]
      exact h
    · have h1 : 0 ≤ round6 (u.usdc_balance - bet) := by
        apply round6_nonneg
        have := not_lt.mp hlt
        linarith
      have h2 : 0 ≤ round6 (round6 (u.usdc_balance - bet) + bet * (36 / 10)) := by
        apply round6_nonneg
        have : 0 ≤ bet * (36 / 10) := by positivity
        linarith
      by_cases hrng : rng < 1 / 4
      · by_cases hjp :
            100 ≤ round6 (round6 (u.usdc_balance - bet) + bet * (36 / 10))
        · rw [handleBet_win_offer hu hlt hrng hjp]
          exact accNonneg_updateJackpot
            (accNonneg_updateUsdc
              (accNonneg_updateJackpot (accNonneg_updateUsdc h h1) _) h2) _
        · rw [handleBet_win_noOffer hu hlt hrng hjp]
          exact accNonneg_stats
            (accNonneg_awardXP
              (accNonneg_updateJackpot
                (accNonneg_updateUsdc
                  (accNonneg_updateJackpot (accNonneg_updateUsdc h h1) _) h2) _)
              tid 20) tid bet true (bet * (36 / 10))
      · rw [handleBet_lose hu hlt hrng]
        exact accNonneg_stats
          (accNonneg_awardXP
            (accNonneg_updateJackpot (accNonneg_updateUsdc h h1) _) tid 5)
          tid bet false 0

theorem accNonneg_jackpotBet {db : DB} (h : AccNonneg db) (tid : ℕ) (rng : ℚ) :
    AccNonneg ((jackpotBet db tid rng).1) := by
  cases hu : db.users tid with
  | none => rw [jackpotBet_notRegistered rng hu]; exact h
  | some u =>
    by_cases hlt : u.usdc_balance < 100
    · rw [jackpotBet_insufficient rng hu hlt]
      exact h
    · have h1 : 0 ≤ round6 (u.usdc_balance - 100) := by
        apply round6_nonneg
        have := not_lt.mp hlt
        linarith
      by_cases hrng : rng < 3 / 100
      · by_cases hfund : db.jackpot ≤ 0
        · rw [jackpotBet_win_unfunded hu hlt hrng hfund]
          exact accNonneg_updateJackpot (accNonneg_updateUsdc h h1) _
        · rw [jackpotBet_win_funded hu hlt hrng hfund]
          have h2 : 0 ≤ round6 (round6 (u.usdc_balance - 100) + db.jackpot) := by
            apply round6_nonneg
            have := not_le.mp hfund
            linarith
          exact accNonneg_awardXP
            (accNonneg_updateUsdc
              (accNonneg_updateJackpot
                (accNonneg_updateJackpot (accNonneg_updateUsdc h h1) _) _) h2)
            tid 50
      · rw [jackpotBet_lose hu hlt hrng]
        exact accNonneg_awardXP
          (accNonneg_updateJackpot (accNonneg_updateUsdc h h1) _) tid 10

theorem accNonneg_usdcWithdrawal {db : DB} (h : AccNonneg db) (tid : ℕ)
    (amount : ℚ) (v t : Bool) : AccNonneg ((usdcWithdrawal db tid amount v t).1) := by
  cases hu : db.users tid with
  | none => rw [usdcWithdrawal_notRegistered amount v t hu]; exact h
  | some u =>
    cases v with
    | false => rw [usdcWithdrawal_invalid amount t hu]; exact h
    | true =>
      by_cases hl : 10000 < amount
      · rw [usdcWithdrawal_limit t hu hl]
        exact h
      · by_cases hb : u.usdc_balance < amount
        · rw [usdcWithdrawal_insufficient t hu hl hb]
          exact h
        · cases t with
          | false => rw [usdcWithdrawal_dispatchFailed hu hl hb]; exact h
          | true =>
            rw [usdcWithdrawal_success hu hl hb]
            have h1 : 0 ≤ round6 (u.usdc_balance - amount) := by
              apply round6_nonneg
              have := not_lt.mp hb
              linarith
            exact accNonneg_updateUsdc h h1

theorem accNonneg_ethWithdrawal {db : DB} (h : AccNonneg db) (tid : ℕ)
    (amount : ℚ) (v t : Bool) : AccNonneg ((ethWithdrawal db tid amount v t).1) := by
  cases hu : db.users tid with
  | none => rw [ethWithdrawal_notRegistered amount v t hu]; exact h
  | some u =>
    cases v with
    | false => rw [ethWithdrawal_invalid amount t hu]; exact h
    | true =>
      by_cases hl : 100 < amount
      · rw [ethWithdrawal_limit t hu hl]
        exact h
      · by_cases hb : u.eth_balance < amount
        · rw [ethWithdrawal_insufficient t hu hl hb]
          exact h
        · cases t with
          | false => rw [ethWithdrawal_dispatchFailed hu hl hb]; exact h
          | true =>
            rw [ethWithdrawal_success hu hl hb]
            have h1 : 0 ≤ round6 (u.eth_balance - amount) := by
              apply round6_nonneg
              have := not_lt.mp hb
              linarith
            exact accNonneg_updateEth h h1

theorem accNonneg_usdcDeposit {db : DB} (h : AccNonneg db) (tid : ℕ)
    {amount : ℚ} (ha : 0 ≤ amount) : AccNonneg (usdcDeposit db tid amount) := by
  cases hu : db.users tid with
  | none => rw [usdcDeposit_none amount hu]; exact h
  | some u =>
    rw [usdcDeposit_some amount hu]
    have h1 : 0 ≤ round6 (u.usdc_balance + amount) := by
      apply round6_nonneg
      have := (h tid u hu).1
      linarith
    exact accNonneg_awardXP (accNonneg_updateUsdc h h1) tid 15

theorem accNonneg_ethDeposit {db : DB} (h : AccNonneg db) (tid : ℕ)
    {amount : ℚ} (ha : 0 ≤ amount) : AccNonneg (ethDeposit db tid amount) := by
  cases hu : db.users tid with
  | none => rw [ethDeposit_none amount hu]; exact h
  | some u =>
    rw [ethDeposit_some amount hu]
    have h1 : 0 ≤ round6 (u.eth_balance + amount) := by
      apply round6_nonneg
      have := (h tid u hu).2
      linarith
    exact accNonneg_awardXP (accNonneg_updateEth h h1) tid 15

theorem accNonneg_applyOp {db : DB} {op : Op} (h : AccNonneg db)
    (hwf : op.wf) : AccNonneg (applyOp db op) := by
  cases op with
  | bet tid bet rng => exact accNonneg_handleBet h tid hwf rng
  | jackpotTry tid rng => exact accNonneg_jackpotBet h tid rng
  | usdcWithdrawOp tid amount v t => exact accNonneg_usdcWithdrawal h tid amount v t
  | ethWithdrawOp tid amount v t => exact accNonneg_ethWithdrawal h tid amount v t
  | usdcDepositOp tid amount => exact accNonneg_usdcDeposit h tid hwf
  | ethDepositOp tid amount => exact accNonneg_ethDeposit h tid hwf

/-! Pool non-negativity for every operation except a winning wager. -/
theorem jackpot_usdcWithdrawal (db : DB) (tid : ℕ) (amount : ℚ) (v t : Bool) :
    ((usdcWithdrawal db tid amount v t).1).jackpot = db.jackpot := by
  cases hu : db.users tid with
  | none => rw [usdcWithdrawal_notRegistered amount v t hu]
  | some u =>
    cases v with
    | false => rw [usdcWithdrawal_invalid amount t hu]
    | true =>
      by_cases hl : 10000 < amount
      · rw [usdcWithdrawal_limit t hu hl]
      · by_cases hb : u.usdc_balance < amount
        · rw [usdcWithdrawal_insufficient t hu hl hb]
        · cases t with
          | false => rw [usdcWithdrawal_dispatchFailed hu hl hb]
          | true =>
            rw [usdcWithdrawal_success hu hl hb]
            exact jackpot_updateUsdc db tid _

theorem jackpot_ethWithdrawal (db : DB) (tid : ℕ) (amount : ℚ) (v t : Bool) :
    ((ethWithdrawal db tid amount v t).1).jackpot = db.jackpot := by
  cases hu : db.users tid with
  | none => rw [ethWithdrawal_notRegistered amount v t hu]
  | some u =>
    cases v with
    | false => rw [ethWithdrawal_invalid amount t hu]
    | true =>
      by_cases hl : 100 < amount
      · rw [ethWithdrawal_limit t hu hl]
      · by_cases hb : u.eth_balance < amount
        · rw [ethWithdrawal_insufficient t hu hl hb]
        · cases t with
          | false => rw [ethWithdrawal_dispatchFailed hu hl hb]
          | true =>
            rw [ethWithdrawal_success hu hl hb]
            exact jackpot_updateEth db tid _

theorem jackpot_jackpotBet_nonneg {db : DB} (hp : 0 ≤ db.jackpot) (tid : ℕ)
    (rng : ℚ) : 0 ≤ ((jackpotBet db tid rng).1).jackpot := by
  cases hu : db.users tid with
  | none => rw [jackpotBet_notRegistered rng hu]; exact hp
  | some u =>
    by_cases hlt : u.usdc_balance < 100
    · rw [jackpotBet_insufficient rng hu hlt]
      exact hp
    · have hstake : (0 : ℚ) ≤ round6 (db.jackpot + 100) := by
        apply round6_nonneg
        linarith
      by_cases hrng : rng < 3 / 100
      · by_cases hfund : db.jackpot ≤ 0
        · rw [jackpotBet_win_unfunded hu hlt hrng hfund]
          exact hstake
        · rw [jackpotBet_win_funded hu hlt hrng hfund]
          apply jackpot_awardXP_nonneg
          rw [jackpot_updateUsdc, jackpot_updateJackpot]
      · rw [jackpotBet_lose hu hlt hrng]
        apply jackpot_awardXP_nonneg
        rw [jackpot_updateJackpot]
        exact hstake

theorem jackpot_handleBet_lose_nonneg {db : DB} (hp : 0 ≤ db.jackpot)
    (tid : ℕ) {bet rng : ℚ} (hbet : 0 ≤ bet) (hrng : ¬ rng < 1 / 4) :
    0 ≤ ((handleBet db tid bet rng).1).jackpot := by
  cases hu : db.users tid with
  | none => rw [handleBet_notRegistered bet rng hu]; exact hp
  | some u =>
    by_cases hlt : u.usdc_balance < bet
    · rw [handleBet_insufficient rng hu hlt]
      exact hp
    · rw [handleBet_lose hu hlt hrng]
      rw [jackpot_stats]
      apply jackpot_awardXP_nonneg
      rw [jackpot_updateJackpot]
      apply round6_nonneg
      linarith

theorem jackpot_usdcDeposit_nonneg {db : DB} (hp : 0 ≤ db.jackpot) (tid : ℕ)
    (amount : ℚ) : 0 ≤ (usdcDeposit db tid amount).jackpot := by
  cases hu : db.users tid with
  | none => rw [usdcDeposit_none amount hu]; exact hp
  | some u =>
    rw [usdcDeposit_some amount hu]
    apply jackpot_awardXP_nonneg
    rw [jackpot_updateUsdc]
    exact hp

theorem jackpot_ethDeposit_nonneg {db : DB} (hp : 0 ≤ db.jackpot) (tid : ℕ)
    (amount : ℚ) : 0 ≤ (ethDeposit db tid amount).jackpot := by
  cases hu : db.users tid with
  | none => rw [ethDeposit_none amount hu]; exact hp
  | some u =>
    rw [ethDeposit_some amount hu]
    apply jackpot_awardXP_nonneg
    rw [jackpot_updateEth]
    exact hp

/-- Single-step pool invariant: any well-formed operation that is not a
winning wager keeps the pool non-negative. -/
theorem pool_nonneg_applyOp {db : DB} {op : Op} (hwf : op.wf)
    (hp : 0 ≤ db.jackpot)
    (hnw : ∀ tid a r, op = Op.bet tid a r → ¬ r < 1 / 4) :
    0 ≤ (applyOp db op).jackpot := by
  cases op with
  | bet tid bet rng =>
    exact jackpot_handleBet_lose_nonneg hp tid hwf (hnw tid bet rng rfl)
  | jackpotTry tid rng => exact jackpot_jackpotBet_nonneg hp tid rng
  | usdcWithdrawOp tid amount v t =>
    rw [applyOp, jackpot_usdcWithdrawal]
    exact hp
  | ethWithdrawOp tid amount v t =>
    rw [applyOp, jackpot_ethWithdrawal]
    exact hp
  | usdcDepositOp tid amount => exact jackpot_usdcDeposit_nonneg hp tid amount
  | ethDepositOp tid amount => exact jackpot_ethDeposit_nonneg hp tid amount

theorem accNonneg_applyOps {db : DB} {ops : List Op} (h : AccNonneg db)
    (hwf : ∀ op ∈ ops, op.wf) : AccNonneg (applyOps db ops) := by
  induction ops generalizing db with
  | nil => exact h
  | cons op rest ih =>
    have h1 : AccNonneg (applyOp db op) :=
      accNonneg_applyOp h (hwf op (List.mem_cons_self op rest))
    exact ih h1 fun o ho => hwf o (List.mem_cons_of_mem op ho)

theorem pool_nonneg_applyOps {db : DB} {ops : List Op} (h : AccNonneg db)
    (hp : 0 ≤ db.jackpot) (hwf : ∀ op ∈ ops, op.wf)
    (hnw : ∀ op ∈ ops, ∀ tid a r, op = Op.bet tid a r → ¬ r < 1 / 4) :
    0 ≤ (applyOps db ops).jackpot := by
  induction ops generalizing db with
  | nil => exact hp
  | cons op rest ih =>
    have hwf1 : op.wf := hwf op (List.mem_cons_self op rest)
    have h1 : AccNonneg (applyOp db op) := accNonneg_applyOp h hwf1
    have hp1 : 0 ≤ (applyOp db op).jackpot :=
      pool_nonneg_applyOp hwf1 hp
        (hnw op (List.mem_cons_self op rest))
    exact ih h1 hp1 (fun o ho => hwf o (List.mem_cons_of_mem op ho))
      (fun o ho => hnw o (List.mem_cons_of_mem op ho))

theorem accNonneg_oneUserDB {u : User} (h1 : 0 ≤ u.usdc_balance)
    (h2 : 0 ≤ u.eth_balance) (pool : ℚ) : AccNonneg (oneUserDB u pool) := by
  intro id w hw
  unfold oneUserDB at hw
  by_cases hid : id = 1
  · simp only [hid, if_pos] at hw
    cases hw
    exact ⟨h1, h2⟩
  · simp only [if_neg hid] at hw
    cases hw

/-- C1 counterexample.  The claim says a wager win can never drive the pool
below zero.  In the code the win payout is deducted from the pool unguarded:
starting from a non-negative state (one account with 100 USDC, pool 0), a
single winning 100-USDC wager (rng draw 0) leaves the pool at −260 USDC. -/
theorem C1_counterexample :
    AccNonneg (oneUserDB { baseUser with usdc_balance := 100 } 0)
      ∧ (0 : ℚ) ≤ (oneUserDB { baseUser with usdc_balance := 100 } 0).jackpot
      ∧ (∀ op ∈ [Op.bet 1 100 0], Op.wf op)
      ∧ (applyOps (oneUserDB { baseUser with usdc_balance := 100 } 0)
          [Op.bet 1 100 0]).jackpot < 0 := by
  have hu : (oneUserDB { baseUser with usdc_balance := 100 } 0).users 1
      = some { baseUser with usdc_balance := 100 } := rfl
  have hge : ¬ ({ baseUser with usdc_balance := 100 } : User).usdc_balance
      < 100 := by
    show ¬ (100 : ℚ) < 100
    norm_num
  have hrng : (0 : ℚ) < 1 / 4 := by norm_num
  have e1 : round6 (({ baseUser with usdc_balance := 100 } : User).usdc_balance
      - 100) = 0 := by
    show round6 ((100 : ℚ) - 100) = 0
    rw [show ((100 : ℚ) - 100) = 0 by norm_num, round6_zero]
  have e3 : round6 ((0 : ℚ) + 100 * (36 / 10)) = 360 := by
    rw [show ((0 : ℚ) + 100 * (36 / 10)) = 360 by norm_num]
    exact round6_ofNat 360
  have hjp : (100 : ℚ) ≤ round6 (round6
      (({ baseUser with usdc_balance := 100 } : User).usdc_balance - 100)
      + 100 * (36 / 10)) := by
    rw [e1, e3]
    norm_num
  have e2 : round6 ((oneUserDB { baseUser with usdc_balance := 100 } 0).jackpot
      + 100) = 100 := by
    show round6 ((0 : ℚ) + 100) = 100
    rw [show ((0 : ℚ) + 100) = 100 by norm_num]
    exact round6_ofNat 100
  have e4 : round6 ((100 : ℚ) - 100 * (36 / 10)) = -260 := by
    rw [show ((100 : ℚ) - 100 * (36 / 10)) = -260 by norm_num]
    exact round6_neg_ofNat 260
  refine ⟨accNonneg_oneUserDB (by norm_num) ?_ 0, le_refl 0, ?_, ?_⟩
  · show (0 : ℚ) ≤ ({ baseUser with usdc_balance := 100 } : User).eth_balance
    norm_num [baseUser]
  · intro op hop
    simp only [List.mem_singleton] at hop
    subst hop
    show (0 : ℚ) ≤ 100
    norm_num
  · show ((handleBet (oneUserDB { baseUser with usdc_balance := 100 } 0)
      1 100 0).1).jackpot < 0
    rw [handleBet_win_offer hu hge hrng hjp]
    show (updateJackpot _ _).jackpot < 0
    rw [jackpot_updateJackpot, e2, e4]
    norm_num

/-- C1 (amended).  For every sequence of well-formed ledger operations from a
non-negative starting state, every account balance (USDC and ETH) stays ≥ 0;
and the pool balance stays ≥ 0 as long as no operation is a winning wager —
the winning-wager payout is deducted from the pool unguarded (the
counterexample shows it can drive the pool negative), while jackpot bets,
deposits, withdrawals and level rewards all preserve pool non-negativity. -/
theorem C1_amended (db : DB) (ops : List Op) (h : AccNonneg db)
    (hp : 0 ≤ db.jackpot) (hwf : ∀ op ∈ ops, op.wf) :
    AccNonneg (applyOps db ops)
      ∧ ((∀ op ∈ ops, ∀ tid a r, op = Op.bet tid a r → ¬ r < 1 / 4) →
          0 ≤ (applyOps db ops).jackpot) :=
  ⟨accNonneg_applyOps h hwf,
   fun hnw => pool_nonneg_applyOps h hp hwf hnw⟩

/-- Witness for `C1_amended`: one user with 20 USDC, pool 5, running a losing
5-USDC wager then a 3-USDC deposit. -/
theorem C1_witness :
    AccNonneg (applyOps (oneUserDB { baseUser with usdc_balance := 20 } 5)
        [Op.bet 1 5 (1 / 2), Op.usdcDepositOp 1 3])
      ∧ 0 ≤ (applyOps (oneUserDB { baseUser with usdc_balance := 20 } 5)
        [Op.bet 1 5 (1 / 2), Op.usdcDepositOp 1 3]).jackpot := by
  have h := C1_amended (oneUserDB { baseUser with usdc_balance := 20 } 5)
    [Op.bet 1 5 (1 / 2), Op.usdcDepositOp 1 3]
    (accNonneg_oneUserDB (by norm_num) (by norm_num [baseUser]) 5)
    (by norm_num [oneUserDB])
    (by
      intro op hop
      simp only [List.mem_cons, List.mem_singleton] at hop
      rcases hop with rfl | rfl | h
      · show (0 : ℚ) ≤ 5
        norm_num
      · show (0 : ℚ) ≤ 3
        norm_num
      · cases h)
  refine ⟨h.1, h.2 ?_⟩
  intro op hop tid a r heq
  simp only [List.mem_cons, List.mem_singleton] at hop
  rcases hop with rfl | rfl | hf
  · cases heq
    norm_num
  · cases heq
  · cases hf

theorem Micro.ofNat (n : ℕ) [n.AtLeastTwo] : Micro (OfNat.ofNat n : ℚ) := by
  have : (((n : ℤ)) : ℚ) = (OfNat.ofNat n : ℚ) := by push_cast; rfl
  simpa [this] using Micro.intCast n

theorem users_updateUsdc_self {db : DB} {tid : ℕ} (v : ℚ) {u : User}
    (hu : db.users tid = some u) :
    (updateUserUsdcBalance db tid v).users tid
      = some { u with usdc_balance := v } := by
  rw [users_updateUsdc, if_pos rfl, hu]
  rfl

theorem users_updateEth_self {db : DB} {tid : ℕ} (v : ℚ) {u : User}
    (hu : db.users tid = some u) :
    (updateUserEthBalance db tid v).users tid
      = some { u with eth_balance := v } := by
  rw [users_updateEth, if_pos rfl, hu]
  rfl

/-- C2 counterexample.  The claim says the sum of account balances plus pool
is conserved across every wager including the jackpot variant.  On a funded
jackpot win the code adds the 100-USDC stake to the pool, pays out only the
pre-stake pool, and resets the whole pool to zero, destroying the stake:
with balance 100 and pool 50 the total drops from 150 to 50. -/
theorem C2_counterexample :
    userUsdc (oneUserDB { baseUser with usdc_balance := 100 } 50) 1
        + (oneUserDB { baseUser with usdc_balance := 100 } 50).jackpot = 150
      ∧ userUsdc ((jackpotBet (oneUserDB { baseUser with usdc_balance := 100 } 50)
            1 0).1) 1
          + ((jackpotBet (oneUserDB { baseUser with usdc_balance := 100 } 50)
            1 0).1).jackpot = 50
      ∧ userUsdc ((jackpotBet (oneUserDB { baseUser with usdc_balance := 100 } 50)
            1 0).1) 1
          + ((jackpotBet (oneUserDB { baseUser with usdc_balance := 100 } 50)
            1 0).1).jackpot
        ≠ userUsdc (oneUserDB { baseUser with usdc_balance := 100 } 50) 1
          + (oneUserDB { baseUser with usdc_balance := 100 } 50).jackpot := by
  have hu : (oneUserDB { baseUser with usdc_balance := 100 } 50).users 1
      = some { baseUser with usdc_balance := 100 } := rfl
  have hge : ¬ ({ baseUser with usdc_balance := 100 } : User).usdc_balance
      < 100 := by
    show ¬ (100 : ℚ) < 100
    norm_num
  have hrng : (0 : ℚ) < 3 / 100 := by norm_num
  have hfund : ¬ (oneUserDB { baseUser with usdc_balance := 100 } 50).jackpot
      ≤ 0 := by
    show ¬ (50 : ℚ) ≤ 0
    norm_num
  have hbefore :
      userUsdc (oneUserDB { baseUser with usdc_balance := 100 } 50) 1
        + (oneUserDB { baseUser with usdc_balance := 100 } 50).jackpot = 150 := by
    show (100 : ℚ) + 50 = 150
    norm_num
  have e1 : round6 (({ baseUser with usdc_balance := 100 } : User).usdc_balance
      - 100) = 0 := by
    show round6 ((100 : ℚ) - 100) = 0
    rw [show ((100 : ℚ) - 100) = 0 by norm_num, round6_zero]
  have hafter :
      userUsdc ((jackpotBet (oneUserDB { baseUser with usdc_balance := 100 } 50)
          1 0).1) 1
        + ((jackpotBet (oneUserDB { baseUser with usdc_balance := 100 } 50)
          1 0).1).jackpot = 50 := by
    rw [jackpotBet_win_funded hu hge hrng hfund]
    rw [e1]
    have e2 : round6 ((0 : ℚ)
        + (oneUserDB { baseUser with usdc_balance := 100 } 50).jackpot) = 50 := by
      show round6 ((0 : ℚ) + 50) = 50
      rw [show ((0 : ℚ) + 50) = 50 by norm_num]
      exact round6_ofNat 50
    rw [e2]
    have hin : (updateUserUsdcBalance
        (updateJackpot
          (updateJackpot (updateUserUsdcBalance
            (oneUserDB { baseUser with usdc_balance := 100 } 50) 1 0)
            (round6 ((oneUserDB { baseUser with usdc_balance := 100 } 50).jackpot
              + 100)))
          0) 1 50).jackpot < 10 := by
      rw [jackpot_updateUsdc, jackpot_updateJackpot]
      norm_num
    obtain ⟨hus, -, hjk⟩ := awardXP_of_pool_lt hin 1 50
    rw [hus 1, hjk]
    have hub : userUsdc (updateUserUsdcBalance
        (updateJackpot
          (updateJackpot (updateUserUsdcBalance
            (oneUserDB { baseUser with usdc_balance := 100 } 50) 1 0)
            (round6 ((oneUserDB { baseUser with usdc_balance := 100 } 50).jackpot
              + 100)))
          0) 1 50) 1 = 50 := by
      apply userUsdc_updateUsdc_self _ _ _
        { ({ baseUser with usdc_balance := 100 } : User) with usdc_balance := 0 }
      rw [users_updateJackpot, users_updateJackpot]
      exact users_updateUsdc_self 0 hu
    rw [hub]
    show (50 : ℚ) + (updateUserUsdcBalance _ 1 50).jackpot = 50
    rw [jackpot_updateUsdc, jackpot_updateJackpot]
    norm_num
  refine ⟨hbefore, hafter, ?_⟩
  rw [hbefore, hafter]
  norm_num

/-- A regular wager conserves (bettor balance + pool) exactly and touches no
other account, whatever the outcome. -/
theorem handleBet_conserve {db : DB} {tid : ℕ} {bet rng : ℚ} {u : User}
    (hu : db.users tid = some u) (hb : Micro u.usdc_balance)
    (hp : Micro db.jackpot) (hbetM : Micro bet)
    (hpay : Micro (bet * (36 / 10))) :
    userUsdc ((handleBet db tid bet rng).1) tid
        + ((handleBet db tid bet rng).1).jackpot
      = userUsdc db tid + db.jackpot
    ∧ ∀ j, j ≠ tid → ((handleBet db tid bet rng).1).users j = db.users j := by
  have hub : userUsdc db tid = u.usdc_balance := by
    unfold userUsdc
    rw [hu]
    rfl
  by_cases hlt : u.usdc_balance < bet
  · rw [handleBet_insufficient rng hu hlt]
    exact ⟨rfl, fun _ _ => rfl⟩
  · have hmnb : Micro (u.usdc_balance - bet) := hb.sub hbetM
    have enb : round6 (u.usdc_balance - bet) = u.usdc_balance - bet :=
      hmnb.round6_eq
    have hmpj : Micro (db.jackpot + bet) := hp.add hbetM
    have epj : round6 (db.jackpot + bet) = db.jackpot + bet := hmpj.round6_eq
    by_cases hrng : rng < 1 / 4
    · have hmub : Micro (u.usdc_balance - bet + bet * (36 / 10)) :=
        hmnb.add hpay
      have eub : round6 (round6 (u.usdc_balance - bet) + bet * (36 / 10))
          = u.usdc_balance - bet + bet * (36 / 10) := by
        rw [enb]
        exact hmub.round6_eq
      have hmfj : Micro (db.jackpot + bet - bet * (36 / 10)) := hmpj.sub hpay
      have efj : round6 (round6 (db.jackpot + bet) - bet * (36 / 10))
          = db.jackpot + bet - bet * (36 / 10) := by
        rw [epj]
        exact hmfj.round6_eq
      have husdc4 : userUsdc (updateJackpot
          (updateUserUsdcBalance
            (updateJackpot (updateUserUsdcBalance db tid
                (round6 (u.usdc_balance - bet)))
              (round6 (db.jackpot + bet)))
            tid (round6 (round6 (u.usdc_balance - bet) + bet * (36 / 10))))
          (round6 (round6 (db.jackpot + bet) - bet * (36 / 10)))) tid
          = u.usdc_balance - bet + bet * (36 / 10) := by
        rw [userUsdc_updateJackpot, ← eub]
        apply userUsdc_updateUsdc_self _ _ _
          { u with usdc_balance := round6 (u.usdc_balance - bet) }
        rw [users_updateJackpot]
        exact users_updateUsdc_self _ hu
      have hjk4 : (updateJackpot
          (updateUserUsdcBalance
            (updateJackpot (updateUserUsdcBalance db tid
                (round6 (u.usdc_balance - bet)))
              (round6 (db.jackpot + bet)))
            tid (round6 (round6 (u.usdc_balance - bet) + bet * (36 / 10))))
          (round6 (round6 (db.jackpot + bet) - bet * (36 / 10)))).jackpot
          = db.jackpot + bet - bet * (36 / 10) := by
        rw [jackpot_updateJackpot, efj]
      have hframe4 : ∀ j, j ≠ tid → (updateJackpot
          (updateUserUsdcBalance
            (updateJackpot (updateUserUsdcBalance db tid
                (round6 (u.usdc_balance - bet)))
              (round6 (db.jackpot + bet)))
            tid (round6 (round6 (u.usdc_balance - bet) + bet * (36 / 10))))
          (round6 (round6 (db.jackpot + bet) - bet * (36 / 10)))).users j
          = db.users j := by
        intro j hj
        rw [users_updateJackpot, users_updateUsdc, if_neg hj,
          users_updateJackpot, users_updateUsdc, if_neg hj]
      by_cases hjp :
          100 ≤ round6 (round6 (u.usdc_balance - bet) + bet * (36 / 10))
      · rw [handleBet_win_offer hu hlt hrng hjp]
        refine ⟨?_, hframe4⟩
        rw [husdc4, hjk4, hub]
        ring
      · rw [handleBet_win_noOffer hu hlt hrng hjp]
        have hmub6 : Micro (userUsdc (updateJackpot
            (updateUserUsdcBalance
              (updateJackpot (updateUserUsdcBalance db tid
                  (round6 (u.usdc_balance - bet)))
                (round6 (db.jackpot + bet)))
              tid (round6 (round6 (u.usdc_balance - bet) + bet * (36 / 10))))
            (round6 (round6 (db.jackpot + bet) - bet * (36 / 10)))) tid) := by
          rw [husdc4]
          exact hmub
        have hmfj6 : Micro ((updateJackpot
            (updateUserUsdcBalance
              (updateJackpot (updateUserUsdcBalance db tid
                  (round6 (u.usdc_balance - bet)))
                (round6 (db.jackpot + bet)))
              tid (round6 (round6 (u.usdc_balance - bet) + bet * (36 / 10))))
            (round6 (round6 (db.jackpot + bet) - bet * (36 / 10)))).jackpot) := by
          rw [hjk4]
          exact hmfj
        obtain ⟨hsum, -, -, hfr, -⟩ := awardXP_props _ tid 20 hmub6 hmfj6
        refine ⟨?_, ?_⟩
        · rw [userUsdc_stats, jackpot_stats, hsum, husdc4, hjk4, hub]
          ring
        · intro j hj
          rw [users_stats_other _ _ _ _ _ _ hj, hfr j hj, hframe4 j hj]
    · rw [handleBet_lose hu hlt hrng]
      have husdc2 : userUsdc (updateJackpot
          (updateUserUsdcBalance db tid (round6 (u.usdc_balance - bet)))
          (round6 (db.jackpot + bet))) tid = u.usdc_balance - bet := by
        rw [userUsdc_updateJackpot, userUsdc_updateUsdc_self db tid _ u hu, enb]
      have hjk2 : (updateJackpot
          (updateUserUsdcBalance db tid (round6 (u.usdc_balance - bet)))
          (round6 (db.jackpot + bet))).jackpot = db.jackpot + bet := by
        rw [jackpot_updateJackpot, epj]
      have hmub2 : Micro (userUsdc (updateJackpot
          (updateUserUsdcBalance db tid (round6 (u.usdc_balance - bet)))
          (round6 (db.jackpot + bet))) tid) := by
        rw [husdc2]
        exact hmnb
      have hmfj2 : Micro ((updateJackpot
          (updateUserUsdcBalance db tid (round6 (u.usdc_balance - bet)))
          (round6 (db.jackpot + bet))).jackpot) := by
        rw [hjk2]
        exact hmpj
      obtain ⟨hsum, -, -, hfr, -⟩ := awardXP_props _ tid 5 hmub2 hmfj2
      refine ⟨?_, ?_⟩
      · rw [userUsdc_stats, jackpot_stats, hsum, husdc2, hjk2, hub]
        ring
      · intro j hj
        rw [users_stats_other _ _ _ _ _ _ hj, hfr j hj,
          users_updateJackpot, users_updateUsdc, if_neg hj]

/-- A jackpot bet conserves (bettor balance + pool) on a loss, on an unfunded
win, and on rejection — but a funded win destroys exactly the 100-USDC stake. -/
theorem jackpotBet_conserve {db : DB} {tid : ℕ} {rng : ℚ} {u : User}
    (hu : db.users tid = some u) (hb : Micro u.usdc_balance)
    (hp : Micro db.jackpot) :
    userUsdc ((jackpotBet db tid rng).1) tid
        + ((jackpotBet db tid rng).1).jackpot
      = (if rng < 3 / 100 ∧ ¬ u.usdc_balance < 100 ∧ ¬ db.jackpot ≤ 0
         then userUsdc db tid + db.jackpot - 100
         else userUsdc db tid + db.jackpot)
    ∧ ∀ j, j ≠ tid → ((jackpotBet db tid rng).1).users j = db.users j := by
  have hub : userUsdc db tid = u.usdc_balance := by
    unfold userUsdc
    rw [hu]
    rfl
  have hm100 : Micro (100 : ℚ) := Micro.ofNat 100
  have hmnb : Micro (u.usdc_balance - 100) := hb.sub hm100
  have enb : round6 (u.usdc_balance - 100) = u.usdc_balance - 100 :=
    hmnb.round6_eq
  have hmpj : Micro (db.jackpot + 100) := hp.add hm100
  have epj : round6 (db.jackpot + 100) = db.jackpot + 100 := hmpj.round6_eq
  by_cases hlt : u.usdc_balance < 100
  · rw [jackpotBet_insufficient rng hu hlt]
    rw [if_neg fun hc => hc.2.1 hlt]
    exact ⟨rfl, fun _ _ => rfl⟩
  · by_cases hrng : rng < 3 / 100
    · by_cases hfund : db.jackpot ≤ 0
      · rw [jackpotBet_win_unfunded hu hlt hrng hfund]
        rw [if_neg fun hc => hc.2.2 hfund]
        refine ⟨?_, ?_⟩
        · rw [jackpot_updateJackpot, epj, userUsdc_updateJackpot,
            userUsdc_updateUsdc_self db tid _ u hu, enb, hub]
          ring
        · intro j hj
          rw [users_updateJackpot, users_updateUsdc, if_neg hj]
      · rw [jackpotBet_win_funded hu hlt hrng hfund]
        rw [if_pos ⟨hrng, hlt, hfund⟩]
        have hmub : Micro (u.usdc_balance - 100 + db.jackpot) := hmnb.add hp
        have eub : round6 (round6 (u.usdc_balance - 100) + db.jackpot)
            = u.usdc_balance - 100 + db.jackpot := by
          rw [enb]
          exact hmub.round6_eq
        have husdc4 : userUsdc (updateUserUsdcBalance
            (updateJackpot
              (updateJackpot (updateUserUsdcBalance db tid
                  (round6 (u.usdc_balance - 100)))
                (round6 (db.jackpot + 100)))
              0)
            tid (round6 (round6 (u.usdc_balance - 100) + db.jackpot))) tid
            = u.usdc_balance - 100 + db.jackpot := by
          rw [← eub]
          apply userUsdc_updateUsdc_self _ _ _
            { u with usdc_balance := round6 (u.usdc_balance - 100) }
          rw [users_updateJackpot, users_updateJackpot]
          exact users_updateUsdc_self _ hu
        have hjk4 : (updateUserUsdcBalance
            (updateJackpot
              (updateJackpot (updateUserUsdcBalance db tid
                  (round6 (u.usdc_balance - 100)))
                (round6 (db.jackpot + 100)))
              0)
            tid (round6 (round6 (u.usdc_balance - 100) + db.jackpot))).jackpot
            = 0 := by
          rw [jackpot_updateUsdc, jackpot_updateJackpot]
        have hmub4 : Micro (userUsdc (updateUserUsdcBalance
            (updateJackpot
              (updateJackpot (updateUserUsdcBalance db tid
                  (round6 (u.usdc_balance - 100)))
                (round6 (db.jackpot + 100)))
              0)
            tid (round6 (round6 (u.usdc_balance - 100) + db.jackpot))) tid) := by
          rw [husdc4]
          exact hmub
        have hmjk4 : Micro ((updateUserUsdcBalance
            (updateJackpot
              (updateJackpot (updateUserUsdcBalance db tid
                  (round6 (u.usdc_balance - 100)))
                (round6 (db.jackpot + 100)))
              0)
            tid (round6 (round6 (u.usdc_balance - 100) + db.jackpot))).jackpot) := by
          rw [hjk4]
          exact Micro.zero
        obtain ⟨hsum, -, -, hfr, -⟩ := awardXP_props _ tid 50 hmub4 hmjk4
        refine ⟨?_, ?_⟩
        · rw [hsum, husdc4, hjk4, hub]
          ring
        · intro j hj
          rw [hfr j hj, users_updateUsdc, if_neg hj, users_updateJackpot,
            users_updateJackpot, users_updateUsdc, if_neg hj]
    · rw [jackpotBet_lose hu hlt hrng]
      rw [if_neg fun hc => hrng hc.1]
      have husdc2 : userUsdc (updateJackpot
          (updateUserUsdcBalance db tid (round6 (u.usdc_balance - 100)))
          (round6 (db.jackpot + 100))) tid = u.usdc_balance - 100 := by
        rw [userUsdc_updateJackpot, userUsdc_updateUsdc_self db tid _ u hu, enb]
      have hjk2 : (updateJackpot
          (updateUserUsdcBalance db tid (round6 (u.usdc_balance - 100)))
          (round6 (db.jackpot + 100))).jackpot = db.jackpot + 100 := by
        rw [jackpot_updateJackpot, epj]
      have hmub2 : Micro (userUsdc (updateJackpot
          (updateUserUsdcBalance db tid (round6 (u.usdc_balance - 100)))
          (round6 (db.jackpot + 100))) tid) := by
        rw [husdc2]
        exact hmnb
      have hmjk2 : Micro ((updateJackpot
          (updateUserUsdcBalance db tid (round6 (u.usdc_balance - 100)))
          (round6 (db.jackpot + 100))).jackpot) := by
        rw [hjk2]
        exact hmpj
      obtain ⟨hsum, -, -, hfr, -⟩ := awardXP_props _ tid 10 hmub2 hmjk2
      refine ⟨?_, ?_⟩
      · rw [hsum, husdc2, hjk2, hub]
        ring
      · intro j hj
        rw [hfr j hj, users_updateJackpot, users_updateUsdc, if_neg hj]

/-- C2 (amended).  With exact micro-USDC amounts, the sum of the bettor's
stable-coin balance and the pool is conserved across every regular wager
(for the five bet sizes the buttons offer), and across losing, unfunded-win
and rejected jackpot bets, with no other account touched; but a funded
winning jackpot bet reduces that sum by exactly the 100-USDC stake, because
the stake is added to the pool, only the pre-stake pool is paid out, and the
whole pool is then reset to zero. -/
theorem C2_amended (db : DB) (tid : ℕ) (bet rng : ℚ) (u : User)
    (hu : db.users tid = some u) (hb : Micro u.usdc_balance)
    (hp : Micro db.jackpot)
    (hbet : bet = 5 ∨ bet = 10 ∨ bet = 100 ∨ bet = 1000 ∨ bet = 10000) :
    (userUsdc ((handleBet db tid bet rng).1) tid
          + ((handleBet db tid bet rng).1).jackpot
        = userUsdc db tid + db.jackpot
      ∧ ∀ j, j ≠ tid → ((handleBet db tid bet rng).1).users j = db.users j)
    ∧ (userUsdc ((jackpotBet db tid rng).1) tid
          + ((jackpotBet db tid rng).1).jackpot
        = (if rng < 3 / 100 ∧ ¬ u.usdc_balance < 100 ∧ ¬ db.jackpot ≤ 0
           then userUsdc db tid + db.jackpot - 100
           else userUsdc db tid + db.jackpot)
      ∧ ∀ j, j ≠ tid → ((jackpotBet db tid rng).1).users j = db.users j) := by
  have hbetM : Micro bet := by
    rcases hbet with rfl | rfl | rfl | rfl | rfl
    · exact Micro.ofNat 5
    · exact Micro.ofNat 10
    · exact Micro.ofNat 100
    · exact Micro.ofNat 1000
    · exact Micro.ofNat 10000
  have hpay : Micro (bet * (36 / 10)) := by
    rcases hbet with rfl | rfl | rfl | rfl | rfl
    · rw [show (5 : ℚ) * (36 / 10) = 18 by norm_num]
      exact Micro.ofNat 18
    · rw [show (10 : ℚ) * (36 / 10) = 36 by norm_num]
      exact Micro.ofNat 36
    · rw [show (100 : ℚ) * (36 / 10) = 360 by norm_num]
      exact Micro.ofNat 360
    · rw [show (1000 : ℚ) * (36 / 10) = 3600 by norm_num]
      exact Micro.ofNat 3600
    · rw [show (10000 : ℚ) * (36 / 10) = 36000 by norm_num]
      exact Micro.ofNat 36000
  exact ⟨handleBet_conserve hu hb hp hbetM hpay, jackpotBet_conserve hu hb hp⟩

/-- Witness for `C2_amended`: one user with 20 USDC, pool 5, a losing 5-USDC
wager conserves balance + pool. -/
theorem C2_witness :
    userUsdc ((handleBet (oneUserDB { baseUser with usdc_balance := 20 } 5)
          1 5 (1 / 2)).1) 1
        + ((handleBet (oneUserDB { baseUser with usdc_balance := 20 } 5)
          1 5 (1 / 2)).1).jackpot
      = userUsdc (oneUserDB { baseUser with usdc_balance := 20 } 5) 1
        + (oneUserDB { baseUser with usdc_balance := 20 } 5).jackpot := by
  exact (C2_amended (oneUserDB { baseUser with usdc_balance := 20 } 5) 1 5
    (1 / 2) { baseUser with usdc_balance := 20 } rfl
    ⟨20000000, by show (20 : ℚ) = _; norm_num⟩
    ⟨5000000, by show (5 : ℚ) = _; norm_num⟩
    (Or.inl rfl)).1.1

/-- C3: the USDC withdrawal handler requests a *single* on-chain transfer of
the *full* amount to the user's address (`withdrawUSDC` calls
`usdcContract.transfer(user.wallet_address, amount)`), never the 99%/1%
split the specification requires — even though the withdraw prompts announce
a 1% fee.  Shown at a withdrawal of 100 USDC with balance 200: the account
is debited the full 100, and the requested transfers differ from the
spec-mandated pair for every operator address. -/
theorem C3_theorem :
    (usdcWithdrawal (oneUserDB { baseUser with usdc_balance := 200 } 0)
        1 100 true true).2.1
      = [WAction.transfer "0xUser" 100, WAction.debitUsdc 1 100]
    ∧ userUsdc ((usdcWithdrawal (oneUserDB { baseUser with usdc_balance := 200 } 0)
        1 100 true true).1) 1 = 100
    ∧ ∀ teamAddr : String,
        ((usdcWithdrawal (oneUserDB { baseUser with usdc_balance := 200 } 0)
            1 100 true true).2.1).filter WAction.isTransfer
          ≠ specWithdrawalTransfers "0xUser" teamAddr 100 := by
  have hu : (oneUserDB { baseUser with usdc_balance := 200 } 0).users 1
      = some { baseUser with usdc_balance := 200 } := rfl
  have hl : ¬ (10000 : ℚ) < 100 := by norm_num
  have hb : ¬ ({ baseUser with usdc_balance := 200 } : User).usdc_balance
      < 100 := by
    show ¬ (200 : ℚ) < 100
    norm_num
  have e : round6 (({ baseUser with usdc_balance := 200 } : User).usdc_balance
      - 100) = 100 := by
    show round6 ((200 : ℚ) - 100) = 100
    rw [show ((200 : ℚ) - 100) = 100 by norm_num]
    exact round6_ofNat 100
  have hrw := usdcWithdrawal_success hu hl hb
  refine ⟨?_, ?_, ?_⟩
  · rw [hrw]
    show [WAction.transfer _ 100, WAction.debitUsdc 1 _] = _
    rw [e]
    rfl
  · rw [hrw]
    show userUsdc (updateUserUsdcBalance _ 1 _) 1 = 100
    rw [userUsdc_updateUsdc_self _ _ _ { baseUser with usdc_balance := 200 } hu, e]
  · intro teamAddr heq
    rw [hrw] at heq
    have hfil : ([WAction.transfer
        ({ baseUser with usdc_balance := 200 } : User).wallet_address 100,
        WAction.debitUsdc 1 (round6
          (({ baseUser with usdc_balance := 200 } : User).usdc_balance
            - 100))].filter WAction.isTransfer).length = 1 := by
      simp [List.filter, WAction.isTransfer]
    rw [heq] at hfil
    simp [specWithdrawalTransfers] at hfil

/-- C4 counterexample.  The claim says the debit of the full amount is
committed before any on-chain transfer is requested.  In the code the
transfer is dispatched first: at a validated 50-USDC withdrawal (balance
100), the handler's chronological effect list starts with the transfer, and
no debit occurs before the first transfer. -/
theorem C4_counterexample :
    (usdcWithdrawal (oneUserDB { baseUser with usdc_balance := 100 } 0)
        1 50 true true).2.2 = WResult.success
    ∧ ((usdcWithdrawal (oneUserDB { baseUser with usdc_balance := 100 } 0)
        1 50 true true).2.1.takeWhile fun a => ! a.isTransfer).any
          WAction.isDebit = false
    ∧ ((usdcWithdrawal (oneUserDB { baseUser with usdc_balance := 100 } 0)
        1 50 true true).2.1).head? = some (WAction.transfer "0xUser" 50) := by
  have hu : (oneUserDB { baseUser with usdc_balance := 100 } 0).users 1
      = some { baseUser with usdc_balance := 100 } := rfl
  have hl : ¬ (10000 : ℚ) < 50 := by norm_num
  have hb : ¬ ({ baseUser with usdc_balance := 100 } : User).usdc_balance
      < 50 := by
    show ¬ (100 : ℚ) < 50
    norm_num
  have hrw := usdcWithdrawal_success hu hl hb
  refine ⟨by rw [hrw], ?_, ?_⟩
  · rw [hrw]
    simp [List.takeWhile, WAction.isTransfer]
  · rw [hrw]
    rfl

/-- C4 (amended).  For every withdrawal that passes validation, the on-chain
transfer of the full amount to the user's address is requested *first*, and
the debit of the full requested amount is committed only after the transfer
call returns successfully; when the transfer fails, no debit is committed
and the store is unchanged.  (Both the USDC and the ETH handler behave this
way.) -/
theorem C4_amended (db : DB) (tid : ℕ) (amount : ℚ) (u : User)
    (hu : db.users tid = some u) (hl : ¬ 10000 < amount)
    (hb : ¬ u.usdc_balance < amount) (hle : ¬ 100 < amount)
    (hbe : ¬ u.eth_balance < amount) :
    ((usdcWithdrawal db tid amount true true).2.1
        = [WAction.transfer u.wallet_address amount,
           WAction.debitUsdc tid (round6 (u.usdc_balance - amount))]
      ∧ userUsdc ((usdcWithdrawal db tid amount true true).1) tid
          = round6 (u.usdc_balance - amount)
      ∧ (usdcWithdrawal db tid amount true false).1 = db
      ∧ (usdcWithdrawal db tid amount true false).2.1
          = [WAction.transfer u.wallet_address amount])
    ∧ ((ethWithdrawal db tid amount true true).2.1
        = [WAction.transfer u.wallet_address amount,
           WAction.debitEth tid (round6 (u.eth_balance - amount))]
      ∧ userEth ((ethWithdrawal db tid amount true true).1) tid
          = round6 (u.eth_balance - amount)
      ∧ (ethWithdrawal db tid amount true false).1 = db
      ∧ (ethWithdrawal db tid amount true false).2.1
          = [WAction.transfer u.wallet_address amount]) := by
  refine ⟨⟨?_, ?_, ?_, ?_⟩, ⟨?_, ?_, ?_, ?_⟩⟩
  · rw [usdcWithdrawal_success hu hl hb]
  · rw [usdcWithdrawal_success hu hl hb]
    exact userUsdc_updateUsdc_self db tid _ u hu
  · rw [usdcWithdrawal_dispatchFailed hu hl hb]
  · rw [usdcWithdrawal_dispatchFailed hu hl hb]
  · rw [ethWithdrawal_success hu hle hbe]
  · rw [ethWithdrawal_success hu hle hbe]
    unfold userEth
    rw [users_updateEth_self _ hu]
    rfl
  · rw [ethWithdrawal_dispatchFailed hu hle hbe]
  · rw [ethWithdrawal_dispatchFailed hu hle hbe]

/-- Witness for `C4_amended`: one user with 100 USDC and 1 ETH withdrawing
0.5 (of each asset, in the two handlers). -/
theorem C4_witness :
    (usdcWithdrawal (oneUserDB
        { baseUser with usdc_balance := 100, eth_balance := 1 } 0)
        1 (1 / 2) true false).1
      = oneUserDB { baseUser with usdc_balance := 100, eth_balance := 1 } 0 := by
  exact (C4_amended (oneUserDB
      { baseUser with usdc_balance := 100, eth_balance := 1 } 0) 1 (1 / 2)
      { baseUser with usdc_balance := 100, eth_balance := 1 } rfl
      (by norm_num)
      (by show ¬ (100 : ℚ) < 1 / 2; norm_num)
      (by norm_num)
      (by show ¬ (1 : ℚ) < 1 / 2; norm_num)).1.2.2.1

/-- C5: a winning jackpot bet (rng < 0.03) from an account holding at least
the 100-USDC stake.  When the pre-bet pool P is positive, the account is
debited the 100 stake and credited exactly P (the pool captured before the
stake was added) and the pool is reset to 0; when P ≤ 0 the result is the
distinct `wonUnfunded` report, the account keeps the stake debited with no
payout, and the pool holds P plus the stake. -/
theorem C5_theorem (db : DB) (tid : ℕ) (rng : ℚ) (u : User)
    (hu : db.users tid = some u) (hge : ¬ u.usdc_balance < 100)
    (hrng : rng < 3 / 100) (hb : Micro u.usdc_balance)
    (hp : Micro db.jackpot) :
    (0 < db.jackpot →
      (jackpotBet db tid rng).2 = JackpotResult.won db.jackpot
      ∧ userUsdc ((jackpotBet db tid rng).1) tid
          = u.usdc_balance - 100 + db.jackpot
      ∧ ((jackpotBet db tid rng).1).jackpot = 0)
    ∧ (db.jackpot ≤ 0 →
      (jackpotBet db tid rng).2 = JackpotResult.wonUnfunded
      ∧ userUsdc ((jackpotBet db tid rng).1) tid = u.usdc_balance - 100
      ∧ ((jackpotBet db tid rng).1).jackpot = db.jackpot + 100) := by
  have hm100 : Micro (100 : ℚ) := Micro.ofNat 100
  have hmnb : Micro (u.usdc_balance - 100) := hb.sub hm100
  have enb : round6 (u.usdc_balance - 100) = u.usdc_balance - 100 :=
    hmnb.round6_eq
  constructor
  · intro hpos
    have hfund : ¬ db.jackpot ≤ 0 := not_le.mpr hpos
    rw [jackpotBet_win_funded hu hge hrng hfund]
    have hjk4 : (updateUserUsdcBalance
        (updateJackpot
          (updateJackpot (updateUserUsdcBalance db tid
              (round6 (u.usdc_balance - 100)))
            (round6 (db.jackpot + 100)))
          0)
        tid (round6 (round6 (u.usdc_balance - 100) + db.jackpot))).jackpot
        = 0 := by
      rw [jackpot_updateUsdc, jackpot_updateJackpot]
    have hlt10 : (updateUserUsdcBalance
        (updateJackpot
          (updateJackpot (updateUserUsdcBalance db tid
              (round6 (u.usdc_balance - 100)))
            (round6 (db.jackpot + 100)))
          0)
        tid (round6 (round6 (u.usdc_balance - 100) + db.jackpot))).jackpot
        < 10 := by
      rw [hjk4]
      norm_num
    obtain ⟨hus, -, hjk⟩ := awardXP_of_pool_lt hlt10 tid 50
    refine ⟨rfl, ?_, ?_⟩
    · rw [hus tid]
      have husdc4 : userUsdc (updateUserUsdcBalance
          (updateJackpot
            (updateJackpot (updateUserUsdcBalance db tid
                (round6 (u.usdc_balance - 100)))
              (round6 (db.jackpot + 100)))
            0)
          tid (round6 (round6 (u.usdc_balance - 100) + db.jackpot))) tid
          = round6 (round6 (u.usdc_balance - 100) + db.jackpot) := by
        apply userUsdc_updateUsdc_self _ _ _
          { u with usdc_balance := round6 (u.usdc_balance - 100) }
        rw [users_updateJackpot, users_updateJackpot]
        exact users_updateUsdc_self _ hu
      rw [husdc4, enb]
      exact (hmnb.add hp).round6_eq
    · rw [hjk, hjk4]
  · intro hfund
    rw [jackpotBet_win_unfunded hu hge hrng hfund]
    refine ⟨rfl, ?_, ?_⟩
    · rw [userUsdc_updateJackpot, userUsdc_updateUsdc_self db tid _ u hu, enb]
    · rw [jackpot_updateJackpot]
      exact (hp.add hm100).round6_eq

/-- Witness for `C5_theorem`: balance 100, pool 50, winning draw 0 — the
account ends at 50 = 100 − 100 + 50 and the pool at 0. -/
theorem C5_witness :
    (jackpotBet (oneUserDB { baseUser with usdc_balance := 100 } 50) 1 0).2
      = JackpotResult.won
          (oneUserDB { baseUser with usdc_balance := 100 } 50).jackpot
    ∧ userUsdc ((jackpotBet (oneUserDB
        { baseUser with usdc_balance := 100 } 50) 1 0).1) 1
      = ({ baseUser with usdc_balance := 100 } : User).usdc_balance - 100
        + (oneUserDB { baseUser with usdc_balance := 100 } 50).jackpot
    ∧ ((jackpotBet (oneUserDB
        { baseUser with usdc_balance := 100 } 50) 1 0).1).jackpot = 0 := by
  exact (C5_theorem (oneUserDB { baseUser with usdc_balance := 100 } 50) 1 0
    { baseUser with usdc_balance := 100 } rfl
    (by show ¬ (100 : ℚ) < 100; norm_num)
    (by norm_num)
    ⟨100000000, by show (100 : ℚ) = _; norm_num⟩
    ⟨50000000, by show (50 : ℚ) = _; norm_num⟩).1
    (by show (0 : ℚ) < 50; norm_num)

/-- C7: the claim (and the function's own doc comment) says
`generateSecureRandom` returns a value in [0, 1).  The code normalizes the
32-bit hash prefix by dividing by `0xFFFFFFFF` = 2³² − 1 rather than 2³², so
when the first 8 hex characters of the hash are all `f` the function returns
exactly 1.  The true range is the closed interval [0, 1]. -/
theorem C7_theorem :
    generateSecureRandom 4294967295 = 1
    ∧ ¬ generateSecureRandom 4294967295 < 1
    ∧ ∀ num : ℕ, num < 4294967296 →
        0 ≤ generateSecureRandom num ∧ generateSecureRandom num ≤ 1 := by
  have h1 : generateSecureRandom 4294967295 = 1 := by
    unfold generateSecureRandom
    norm_num
  refine ⟨h1, by rw [h1]; norm_num, ?_⟩
  intro num hnum
  unfold generateSecureRandom
  constructor
  · positivity
  · rw [div_le_one (by norm_num)]
    have : num ≤ 4294967295 := by omega
    calc (num : ℚ) ≤ (4294967295 : ℕ) := by exact_mod_cast this
      _ = (0xFFFFFFFF : ℚ) := by norm_num

/-- Witness for `C7_theorem` at the 32-bit value 7. -/
theorem C7_witness :
    0 ≤ generateSecureRandom 7 ∧ generateSecureRandom 7 ≤ 1 :=
  C7_theorem.2.2 7 (by norm_num)

theorem getXPForNextLevel_ge_100 {l : ℤ} (hl : 1 ≤ l) :
    100 ≤ getXPForNextLevel l := by
  unfold getXPForNextLevel
  have hk : 0 ≤ l - 1 := by linarith
  obtain ⟨k, hk'⟩ := Int.eq_ofNat_of_zero_le hk
  rw [hk', zpow_natCast]
  have h1 : (1 : ℚ) ≤ (3 / 2) ^ k := one_le_pow₀ (by norm_num)
  refine Int.le_floor.mpr ?_
  push_cast
  nlinarith

/-- The `addUserXP` cascade stops with the remaining XP strictly below the
threshold of the reached level (for reachable states: level ≥ 1, XP ≥ 0). -/
theorem xpLoop_lt_threshold :
    ∀ (fuel : ℕ) (x l : ℤ) (b : Bool), 1 ≤ l → 0 ≤ x → x.toNat < fuel →
      (xpLoop fuel x l b).1 < getXPForNextLevel (xpLoop fuel x l b).2.1 := by
  intro fuel
  induction fuel with
  | zero =>
    intro x l b _ _ h3
    omega
  | succ fuel ih =>
    intro x l b hl hx hfx
    rw [xpLoop_succ]
    by_cases hc : getXPForNextLevel l ≤ x
    · rw [if_pos hc]
      have hT : 100 ≤ getXPForNextLevel l := getXPForNextLevel_ge_100 hl
      apply ih
      · linarith
      · omega
      · omega
    · rw [if_neg hc]
      exact not_le.mp hc

/-- C8: `addUserXP` cascades through levels using the threshold
`getXPForNextLevel` = ⌊100 × 1.5^(level−1)⌋, looping until the remaining XP
is below the next threshold (first conjunct, for any reachable state:
level ≥ 1, XP ≥ 0, award ≥ 0); and a level-1 user with exactly 100 XP who is
awarded 1 XP ends at newXP = 1, newLevel = 2, levelUp = true (Scenario C). -/
theorem C8_theorem (db : DB) (tid : ℕ) (n : ℤ) (u : User)
    (hu : db.users tid = some u) (hl : 1 ≤ u.level) (hx : 0 ≤ u.xp)
    (hn : 0 ≤ n) :
    (∀ r : ℤ × ℤ × Bool, (addUserXP db tid n).2 = some r →
        r.1 < getXPForNextLevel r.2.1)
    ∧ (addUserXP (oneUserDB { baseUser with xp := 100 } 0) 1 1).2
        = some (1, 2, true) := by
  constructor
  · intro r hr
    unfold addUserXP at hr
    rw [hu] at hr
    simp only [Option.some.injEq] at hr
    subst hr
    exact xpLoop_lt_threshold ((u.xp + n).toNat + 1) (u.xp + n) u.level false
      hl (by linarith) (Nat.lt_succ_self _)
  · have hloop : xpLoop 102 101 1 false = (1, 2, true) := by
      rw [show (102 : ℕ) = 101 + 1 from rfl, xpLoop_succ, getXPForNextLevel_one,
        if_pos (by norm_num : (100 : ℤ) ≤ 101),
        show (101 : ℤ) - 100 = 1 by norm_num,
        show (1 : ℤ) + 1 = 2 by norm_num,
        show (101 : ℕ) = 100 + 1 from rfl, xpLoop_succ, getXPForNextLevel_two,
        if_neg (by norm_num : ¬ (150 : ℤ) ≤ 1)]
    show some (xpLoop 102 101 1 false) = some (1, 2, true)
    rw [hloop]

/-- Witness for `C8_theorem`: a level-1 user with 0 XP awarded 5 XP stays
below the level-1 threshold. -/
theorem C8_witness : (5 : ℤ) < getXPForNextLevel 1 := by
  have hloop : xpLoop 6 5 1 false = (5, 1, false) := by
    rw [show (6 : ℕ) = 5 + 1 from rfl, xpLoop_succ, getXPForNextLevel_one,
      if_neg (by norm_num : ¬ (100 : ℤ) ≤ 5)]
  have h := (C8_theorem (oneUserDB baseUser 0) 1 5 baseUser rfl (le_refl 1)
    (le_refl 0) (by norm_num)).1 (5, 1, false)
    (by show some (xpLoop 6 5 1 false) = some (5, 1, false); rw [hloop])
  exact h

/-- C9: every wager or withdrawal request that fails validation (caller not
registered, stake or amount exceeding the available balance, or amount over
the per-transaction limit) is rejected before any mutation: the store is
returned exactly as it was, no on-chain transfer is requested, and the
failure is reported. -/
theorem C9_theorem (db : DB) (tid : ℕ) (bet amount rng : ℚ) (u : User) :
    (db.users tid = none →
        handleBet db tid bet rng = (db, .notRegistered)
        ∧ jackpotBet db tid rng = (db, .notRegistered)
        ∧ (∀ v t, usdcWithdrawal db tid amount v t = (db, [], .notRegistered))
        ∧ (∀ v t, ethWithdrawal db tid amount v t = (db, [], .notRegistered)))
    ∧ (db.users tid = some u →
        (u.usdc_balance < bet →
          handleBet db tid bet rng = (db, .insufficientBalance))
        ∧ (u.usdc_balance < 100 →
          jackpotBet db tid rng = (db, .insufficientBalance))
        ∧ (10000 < amount →
          ∀ t, usdcWithdrawal db tid amount true t = (db, [], .limitExceeded))
        ∧ (¬ 10000 < amount → u.usdc_balance < amount →
          ∀ t, usdcWithdrawal db tid amount true t = (db, [], .insufficientBalance))
        ∧ (100 < amount →
          ∀ t, ethWithdrawal db tid amount true t = (db, [], .limitExceeded))
        ∧ (¬ 100 < amount → u.eth_balance < amount →
          ∀ t, ethWithdrawal db tid amount true t = (db, [], .insufficientBalance))) := by
  constructor
  · intro hu
    exact ⟨handleBet_notRegistered bet rng hu, jackpotBet_notRegistered rng hu,
      fun v t => usdcWithdrawal_notRegistered amount v t hu,
      fun v t => ethWithdrawal_notRegistered amount v t hu⟩
  · intro hu
    refine ⟨fun hlt => handleBet_insufficient rng hu hlt,
      fun hlt => jackpotBet_insufficient rng hu hlt,
      fun hl t => usdcWithdrawal_limit t hu hl,
      fun hl hb t => usdcWithdrawal_insufficient t hu hl hb,
      fun hl t => ethWithdrawal_limit t hu hl,
      fun hl hb t => ethWithdrawal_insufficient t hu hl hb⟩

/-- Witness for `C9_theorem` (Scenario D): a 100-USDC withdrawal with
balance 50 is rejected with the store unchanged and no transfer requested. -/
theorem C9_witness :
    usdcWithdrawal (oneUserDB { baseUser with usdc_balance := 50 } 0)
        1 100 true true
      = (oneUserDB { baseUser with usdc_balance := 50 } 0, [],
         WResult.insufficientBalance) := by
  exact ((C9_theorem (oneUserDB { baseUser with usdc_balance := 50 } 0) 1
      5 100 0 { baseUser with usdc_balance := 50 }).2 rfl).2.2.2.1
    (by norm_num)
    (by show (50 : ℚ) < 100; norm_num)
    true

/-- C10: a winning non-jackpot wager whose payout brings the balance to 100
or more hands control to the jackpot offer (`won true`, from entering
`jackpot_scene`) and returns before awarding XP or updating statistics: the
bettor's row keeps its exact xp, level, total_bets, total_wins,
total_usdc_won, total_amount_bet, total_usdc_lost, total_losses and
highest_single_bet values, with only the balance updated, while the stake
and payout mutations to balance and pool are applied. -/
theorem C10_theorem (db : DB) (tid : ℕ) (bet rng : ℚ) (u : User)
    (hu : db.users tid = some u) (hge : ¬ u.usdc_balance < bet)
    (hrng : rng < 1 / 4)
    (hjp : 100 ≤ round6 (round6 (u.usdc_balance - bet) + bet * (36 / 10))) :
    (handleBet db tid bet rng).2 = BetResult.won true
    ∧ ((handleBet db tid bet rng).1).users tid
        = some { u with usdc_balance := round6 (round6 (u.usdc_balance - bet) + bet * (36 / 10)) }
    ∧ ((handleBet db tid bet rng).1).jackpot
        = round6 (round6 (db.jackpot + bet) - bet * (36 / 10)) := by
  rw [handleBet_win_offer hu hge hrng hjp]
  refine ⟨rfl, ?_, rfl⟩
  rw [users_updateJackpot]
  rw [users_updateUsdc_self _
    (show (updateJackpot (updateUserUsdcBalance db tid
        (round6 (u.usdc_balance - bet)))
        (round6 (db.jackpot + bet))).users tid
      = some { u with usdc_balance := round6 (u.usdc_balance - bet) } by
      rw [users_updateJackpot]
      exact users_updateUsdc_self _ hu)]

/-- Witness for `C10_theorem`: balance 100 (with xp 7 and 3 recorded bets),
pool 0, winning 100-USDC bet: result enters the jackpot offer, the row keeps
xp 7 and total_bets 3 with balance 360, and the pool ends at −260. -/
theorem C10_witness :
    (handleBet (oneUserDB { baseUser with usdc_balance := 100, xp := 7, total_bets := 3 } 0) 1 100 0).2 = BetResult.won true
    ∧ ((handleBet (oneUserDB { baseUser with usdc_balance := 100, xp := 7, total_bets := 3 } 0) 1 100 0).1).users 1
      = some { baseUser with usdc_balance := 360, xp := 7, total_bets := 3 }
    ∧ ((handleBet (oneUserDB { baseUser with usdc_balance := 100, xp := 7, total_bets := 3 } 0) 1 100 0).1).jackpot = -260 := by
  have e1 : round6 (({ baseUser with usdc_balance := 100, xp := 7, total_bets := 3 } : User).usdc_balance - 100) = 0 := by
    show round6 ((100 : ℚ) - 100) = 0
    rw [show ((100 : ℚ) - 100) = 0 by norm_num, round6_zero]
  have e3 : round6 (round6 (({ baseUser with usdc_balance := 100, xp := 7, total_bets := 3 } : User).usdc_balance - 100) + 100 * (36 / 10)) = 360 := by
    rw [e1, show ((0 : ℚ) + 100 * (36 / 10)) = 360 by norm_num]
    exact round6_ofNat 360
  have e2 : round6 ((oneUserDB { baseUser with usdc_balance := 100, xp := 7, total_bets := 3 } 0).jackpot + 100) = 100 := by
    show round6 ((0 : ℚ) + 100) = 100
    rw [show ((0 : ℚ) + 100) = 100 by norm_num]
    exact round6_ofNat 100
  have e4 : round6 (round6 ((oneUserDB { baseUser with usdc_balance := 100, xp := 7, total_bets := 3 } 0).jackpot + 100) - 100 * (36 / 10)) = -260 := by
    rw [e2, show ((100 : ℚ) - 100 * (36 / 10)) = -260 by norm_num]
    exact round6_neg_ofNat 260
  have h := C10_theorem (oneUserDB { baseUser with usdc_balance := 100, xp := 7, total_bets := 3 } 0) 1 100 0 { baseUser with usdc_balance := 100, xp := 7, total_bets := 3 }
      rfl
      (by show ¬ (100 : ℚ) < 100; norm_num)
      (by norm_num)
      (by rw [e3]; norm_num)
  refine ⟨h.1, ?_, ?_⟩
  · rw [h.2.1, e3]
  · rw [h.2.2, e4]

/-- C6 counterexample.  `updateUserUsdcBalance` is a blind last-write-wins
write of a caller-computed value, not an atomic read-modify-write, and
`handleBet` reads the balance, awaits, then writes it back.  Under the
interleaving in which both of two concurrent 5-USDC wagers (same account,
balance 10 = 2 × 5) read the balance before either writes, both observe the
same pre-debit balance 10 and the final balance is 5, not 0: one stake is
lost to the race, refuting the claim. -/
theorem C6_counterexample :
    runSched [false, true, false, true, false, false, true, true] (10, 0)
        (betProcCont 5, betProcCont 5) []
      = ((5, 10), [10, 10])
    ∧ (5 : ℚ) ≠ 0 := by
  have r5 : round6 (5 : ℚ) = 5 :=
    Micro.round6_eq ⟨5000000, by norm_num⟩
  have r10 : round6 (10 : ℚ) = 10 :=
    Micro.round6_eq ⟨10000000, by norm_num⟩
  constructor
  · norm_num [runSched, stepProc, betProcCont, r5, r10, round6_zero,
      Option.toList]
  · norm_num

/-- C6 (amended).  The store's balance update is a blind write, so the
claimed outcome only holds when the wagers are serialized: run one after the
other (balance 10, two stakes of 5), both succeed, the two observed
pre-debit balances are the distinct values 10 and 5, and the balance reaches
exactly 0 with the pool at 10 — while the interleaved schedule of the
counterexample loses an update. -/
theorem C6_amended :
    runSched [false, false, false, false, true, true, true, true] (10, 0)
        (betProcCont 5, betProcCont 5) []
      = ((0, 10), [10, 5])
    ∧ (10 : ℚ) ≠ 5 := by
  have r5 : round6 (5 : ℚ) = 5 :=
    Micro.round6_eq ⟨5000000, by norm_num⟩
  have r10 : round6 (10 : ℚ) = 10 :=
    Micro.round6_eq ⟨10000000, by norm_num⟩
  constructor
  · norm_num [runSched, stepProc, betProcCont, r5, r10, round6_zero,
      Option.toList]
  · norm_num
